import Mathlib

/-!
# Verification of the CVM compensation-data normalization pipeline

Shallow embedding of `load_data` from `src/app.py` (the schema-normalizer core
of the pesq_rem_CVM dashboard): CSV ingestion (UTF-8-sig decoding, comma
splitting), alias-based column renaming, the positional sector fallback,
numeric coercion with zero fill, categorical standardization with sentinel
substitution, fiscal-year coercion, and the surrounding `try/except` that
degrades any failure to an empty table.

Tables are modelled as ordered lists of labelled columns; a cell is a string,
a (rational) number, or a null (pandas `NaN`).  Float arithmetic is abstracted
to exact rationals; `pd.to_numeric` is modelled by a plain decimal parser
(sign, digits, optional fraction part), which covers the values in the data.
Pandas' deduplication of duplicate headers at CSV-read time is not modelled;
theorems that need header uniqueness carry it as a hypothesis.
-/

namespace CVM

/-- A cell of a pandas column: a string, a number, or a missing value (NaN). -/
inductive Cell where
  | str (s : String)
  | num (q : Rat)
  | null
deriving DecidableEq, Repr

/-- A labelled column: header name and the list of cells (top to bottom). -/
abbrev Col := String × List Cell

/-- A table is the ordered list of its columns (`df`), left to right. -/
abbrev Table := List Col

/-- `df.columns`: the list of header names in order. -/
def headers (t : Table) : List String := t.map Prod.fst

/-- Number of rows (`len(df)`): length of the first column, 0 if no columns. -/
def nrows (t : Table) : Nat :=
  match t with
  | [] => 0
  | c :: _ => c.2.length

/-- `df[l]` for a unique label: the first column labelled `l`, if any. -/
def getCol (t : Table) (l : String) : Option (List Cell) :=
  (t.find? (fun c => c.1 = l)).map Prod.snd

/-- Number of columns carrying label `l` (pandas allows duplicate labels). -/
def countLabel (t : Table) (l : String) : Nat := (headers t).count l

/-! ## Character and string helpers (structural, kernel-reducible) -/

/-- Whitespace characters stripped by Python's `str.strip()` (the ones that
can occur in this data: ASCII whitespace and the no-break space). -/
def isWs (c : Char) : Bool :=
  c = ' ' || c = '\t' || c = '\n' || c = '\r' ||
  c.toNat = 0x0B || c.toNat = 0x0C || c.toNat = 0xA0

/-- Drop leading whitespace from a character list. -/
def dropWs (l : List Char) : List Char := l.dropWhile isWs

/-- Python `str.strip()`: drop leading and trailing whitespace. -/
def trimChars (l : List Char) : List Char :=
  (dropWs (dropWs l.reverse).reverse)

/-- `str.strip()` lifted to `String`. -/
def strTrim (s : String) : String := ⟨trimChars s.data⟩

/-- Python `str.upper()` restricted to ASCII and the Latin-1 letter block
(à–þ except ÷ map down by 0x20, covering the accented letters in the data). -/
def upperChar (c : Char) : Char :=
  if 0xE0 ≤ c.toNat ∧ c.toNat ≤ 0xFE ∧ c.toNat ≠ 0xF7 then
    Char.ofNat (c.toNat - 0x20)
  else
    c.toUpper

/-- `str.upper()` lifted to `String`. -/
def strUpper (s : String) : String := ⟨s.data.map upperChar⟩

/-- Python `str.title()` on a character list: the first letter of each
letter-run is uppercased, the rest lowercased (ASCII letters suffice for the
canonical column names it is applied to).  `start` records whether the
previous character was not a letter. -/
def titleChars : List Char → Bool → List Char
  | [], _ => []
  | c :: cs, start =>
    (if c.isAlpha then (if start then c.toUpper else c.toLower) else c)
      :: titleChars cs (!c.isAlpha)

/-- `col.replace('_', ' ')` on the canonical names. -/
def underscoresToSpaces (s : String) : String :=
  ⟨s.data.map (fun c => if c = '_' then ' ' else c)⟩

/-- The categorical sentinel of `src/app.py` line 108:
`f"{col.replace('_', ' ').title()} Não Informado"`. -/
def sentinel (col : String) : String :=
  (⟨titleChars (underscoresToSpaces col).data true⟩ : String) ++ " Não Informado"

/-! ## Numeric parsing (`pd.to_numeric(..., errors='coerce')`) -/

/-- All characters are decimal digits. -/
def allDigits (l : List Char) : Bool := l.all (·.isDigit)

/-- Value of a digit string. -/
def digitsVal (l : List Char) : Nat :=
  l.foldl (fun acc c => 10 * acc + (c.toNat - '0'.toNat)) 0

/-- Split at the first `'.'`: characters before it, and (if a dot was found)
the characters after it. -/
def splitDot : List Char → List Char × Option (List Char)
  | [] => ([], none)
  | c :: cs =>
    if c = '.' then ([], some cs)
    else
      let r := splitDot cs
      (c :: r.1, r.2)

/-- Unsigned decimal literal: `"12"`, `"12.5"`, `"12."`, `".5"`. -/
def parseUnsigned (l : List Char) : Option Rat :=
  match splitDot l with
  | (a, none) =>
    if a ≠ [] && allDigits a then some (digitsVal a) else none
  | (a, some b) =>
    if allDigits a && allDigits b && (a ≠ [] || b ≠ []) then
      some (mkRat (digitsVal a * 10 ^ b.length + digitsVal b) (10 ^ b.length))
    else none

/-- `pd.to_numeric(..., errors='coerce')` on one string: strip whitespace,
optional sign, decimal literal; anything else is unparseable (`NaN`). -/
def parseNum (s : String) : Option Rat :=
  match trimChars s.data with
  | '-' :: rest => (parseUnsigned rest).map Neg.neg
  | '+' :: rest => parseUnsigned rest
  | l => parseUnsigned l

/-! ## The schema (src/app.py lines 27–76 and 102) -/

/-- The `rename_map` of `load_data`: canonical name and its ordered alias
list, in source order. -/
def renameMap : List (String × List String) :=
  [ ("NOME_COMPANHIA", ["DENOM_CIA"]),
    ("ANO_REFER", ["Ano do Exercício Social"]),
    ("ORGAO_ADMINISTRACAO", ["Orgao_Administracao"]),
    ("SETOR_ATIVIDADE", ["SETOR_DE_ATIVDADE", "Setor de ativdade",
      "Setor de Atividade", "SETOR", "ATIVIDADE"]),
    ("CONTROLE_ACIONARIO", ["CONTROLE_ACIONARIO"]),
    ("UF_SEDE", ["UF_SEDE"]),
    ("NUM_MEMBROS_ACOES", ["Quantidade_Membros_Remunerados_Com_Acoes_Opcoes"]),
    ("VALOR_OPCOES_EXERCIDAS",
      ["Valor_Total_Opcoes_Acoes_Exercidas_Reconhecidas_Resultado_Exercicio"]),
    ("VALOR_ACOES_RESTRITAS",
      ["Valor_Total_Acoes_Restritas_Entregues_Reconhecidas_Resultado_Exercicio"]),
    ("VALOR_OUTROS_PLANOS_ACOES",
      ["Valor_Total_Outros_Planos_Baseados_Acoes_Reconhecidos_Resultado_Exercicio"]),
    ("TOTAL_REM_ACOES_BLOCO1",
      ["Valor_Total_Remuneracao_Baseada_Acoes_Reconhecida_Resultado_Exercicio"]),
    ("NUM_MEMBROS_INDIVIDUAL", ["Quantidade_Membros_Orgao_Remuneracao_Individual"]),
    ("REM_MAXIMA_INDIVIDUAL",
      ["Valor_Maior_Remuneracao_Individual_Reconhecida_Exercicio",
       "Valor_Maior_Remuneracao_Individual", "REMUNERACAO_MAXIMA",
       "VALOR_MAIOR_REMUNERACAO"]),
    ("REM_MEDIA_INDIVIDUAL",
      ["Valor_Medio_Remuneracao_Individual_Reconhecida_Exercicio",
       "Valor_Medio_Remuneracao_Individual", "REMUNERACAO_MEDIA",
       "VALOR_MEDIO_REMUNERACAO"]),
    ("REM_MINIMA_INDIVIDUAL",
      ["Valor_Menor_Remuneracao_Individual_Reconhecida_Exercicio",
       "Valor_Menor_Remuneracao_Individual", "REMUNERACAO_MINIMA",
       "VALOR_MENOR_REMUNERACAO"]),
    ("DESVIO_PADRAO_INDIVIDUAL",
      ["Desvio_Padrao_Remuneracao_Individual_Reconhecida_Exercicio",
       "DESVIO_PADRAO"]),
    ("NUM_MEMBROS_TOTAL",
      ["Quantidade_Total_Membros_Remunerados_Orgao", "QTD_MEMBROS_REMUNERADOS_TOTAL"]),
    ("REM_FIXA_SALARIO", ["SALARIO"]),
    ("REM_FIXA_BENEFICIOS", ["BENEFICIOS_DIRETOS_INDIRETOS"]),
    ("REM_FIXA_COMITES", ["PARTICIPACOES_COMITES"]),
    ("REM_FIXA_OUTROS", ["OUTROS_VALORES_FIXOS"]),
    ("REM_VAR_BONUS", ["BONUS"]),
    ("REM_VAR_PLR", ["PARTICIPACAO_RESULTADOS"]),
    ("REM_VAR_REUNIOES", ["PARTICIPACAO_REUNIOES"]),
    ("REM_VAR_COMISSOES", ["COMISSOES"]),
    ("REM_VAR_OUTROS", ["OUTROS_VALORES_VARIAVEIS"]),
    ("REM_POS_EMPREGO", ["POS_EMPREGO"]),
    ("REM_CESSACAO_CARGO", ["CESSACAO_CARGO"]),
    ("REM_ACOES_BLOCO3", ["BASEADA_ACOES"]),
    ("TOTAL_REMUNERACAO_ORGAO", ["TOTAL_REMUNERACAO_ORGAO"]),
    ("NUM_MEMBROS_BONUS_PLR", ["QTD_MEMBROS_REMUNERADOS_VARIAVEL"]),
    ("BONUS_MIN", ["BONUS_VALOR_MINIMO"]),
    ("BONUS_MAX", ["BONUS_VALOR_MAXIMO"]),
    ("BONUS_ALVO", ["BONUS_VALOR_METAS_ATINGIDAS"]),
    ("BONUS_PAGO", ["BONUS_VALOR_EFETIVO"]),
    ("PLR_MIN", ["PARTICIPACAO_VALOR_MINIMO"]),
    ("PLR_MAX", ["PARTICIPACAO_VALOR_MAXIMO"]),
    ("PLR_ALVO", ["PARTICIPACAO_VALOR_METAS_ATINGIDAS"]),
    ("PLR_PAGO", ["PARTICIPACAO_VALOR_EFETIVO"]) ]

/-- `categorical_cols` of `load_data` (line 102). -/
def categoricalCols : List String :=
  ["NOME_COMPANHIA", "ORGAO_ADMINISTRACAO", "SETOR_ATIVIDADE",
   "CONTROLE_ACIONARIO", "UF_SEDE"]

/-- Substring test (Python `needle in haystack`). -/
def prefixOf : List Char → List Char → Bool
  | [], _ => true
  | _ :: _, [] => false
  | a :: as_, b :: bs => a = b && prefixOf as_ bs

/-- `n` occurs as a contiguous substring of `h`. -/
def infixOf (n : List Char) : List Char → Bool
  | [] => n.isEmpty
  | b :: bs => prefixOf n (b :: bs) || infixOf n bs

/-- `needle in haystack` on `String`s. -/
def substr (n h : String) : Bool := infixOf n.data h.data

/-- The numeric-column test of line 95: the canonical name contains one of
the marker substrings. -/
def isNumericCol (col : String) : Bool :=
  substr "NUM" col || substr "VALOR" col || substr "TOTAL" col ||
  substr "REM" col || substr "PERC" col || substr "BONUS" col ||
  substr "PLR" col || substr "DESVIO" col

/-! ## Cell-level coercions -/

/-- `pd.to_numeric(x, errors='coerce').fillna(0)` on one cell. -/
def numCell : Cell → Cell
  | .str s => .num ((parseNum s).getD 0)
  | .num q => .num q
  | .null => .num 0

/-- `astype(str)` on one cell (`NaN` prints as `"nan"`). -/
def cellToStr : Cell → String
  | .str s => s
  | .num q => toString q
  | .null => "nan"

/-- `astype(str).str.strip().str.upper()` on one cell.  The subsequent
`.fillna(...)` of line 105 is a no-op: after `astype(str)` no null remains. -/
def catCell (c : Cell) : Cell := .str (strUpper (strTrim (cellToStr c)))

/-- `astype(int)` truncation toward zero of a rational. -/
def truncRat (q : Rat) : Int := Int.tdiv q.num q.den

/-- One cell of `pd.to_numeric(df['ANO_REFER'], errors='coerce').dropna()
.astype(int)` assigned back to the frame: parseable values become integers,
unparseable ones are dropped by `dropna()` and reappear as `NaN` when the
shorter series is aligned back onto the frame's index. -/
def yearCell : Cell → Cell
  | .str s =>
    match parseNum s with
    | some q => .num (truncRat q)
    | none => .null
  | .num q => .num (truncRat q)
  | .null => .null

/-! ## The pipeline steps -/

/-- Line 24: `df.columns = df.columns.str.strip()`. -/
def stripHeaders (t : Table) : Table := t.map (fun c => (strTrim c.1, c.2))

/-- Lines 78–83, generic in the alias table: for each canonical field, the
first alias present among the headers `hs` is mapped to the canonical name. -/
def buildRenameGen (rm : List (String × List String)) (hs : List String) :
    List (String × String) :=
  rm.filterMap
    (fun p => (p.2.find? (fun a => hs.contains a)).map (fun a => (a, p.1)))

/-- Lines 78–83: `actual_rename_dict`.  (All aliases are pairwise distinct
across fields — proved below — so the association list has the same lookup
behaviour as the Python dict.) -/
def buildRename (hs : List String) : List (String × String) :=
  buildRenameGen renameMap hs

/-- Line 84: `df.rename(columns=actual_rename_dict)`: every column whose
label is a key of the dict gets the dict's value, others are untouched. -/
def applyRename (d : List (String × String)) (t : Table) : Table :=
  t.map (fun c => ((List.lookup c.1 d).getD c.1, c.2))

/-- The alias-renaming step as a function of the table. -/
def aliasRename (t : Table) : Table := applyRename (buildRename (headers t)) t

/-- Lines 87–90: positional fallback.  If `SETOR_ATIVIDADE` is absent and
there are at least 42 columns, every column sharing the label of column 41
is renamed to `SETOR_ATIVIDADE` (pandas `rename` renames by label). -/
def posFallback (t : Table) : Table :=
  if (headers t).contains "SETOR_ATIVIDADE" then t
  else
    match t.get? 41 with
    | none => t
    | some c41 =>
      t.map (fun c => if c.1 = c41.1 then ("SETOR_ATIVIDADE", c.2) else c)

/-- Header strip, alias rename and positional fallback combined (the column
resolution phase of `load_data`). -/
def resolveCols (t : Table) : Table := posFallback (aliasRename (stripHeaders t))

/-- `df[col] = f(df[col])`: replace the cells of every column labelled
`col`, leaving the label and all other columns unchanged. -/
def mapCol (col : String) (f : List Cell → List Cell) (t : Table) : Table :=
  t.map (fun c => if c.1 = col then (c.1, f c.2) else c)

/-- One iteration of the coercion loops (lines 94–99 and 103–108), shared
shape: `cond` gates the column (the substring test for the numeric loop,
always true for the categorical one); with the label present exactly once
the cells are transformed by `tf`; with the label absent a fresh column
filled with `fill col` is appended; with a duplicated label the pandas call
(`pd.to_numeric` on a DataFrame, resp. the `.str` accessor) raises. -/
def coerceCol (cond : String → Bool) (tf : Cell → Cell) (fill : String → Cell)
    (t : Table) (col : String) : Except String Table :=
  if cond col then
    match countLabel t col with
    | 0 => .ok (t ++ [(col, List.replicate (nrows t) (fill col))])
    | 1 => .ok (mapCol col (List.map tf) t)
    | _ => .error ("duplicate column label " ++ col)
  else .ok t

/-- Lines 92–99: the numeric coercion loop over all canonical names. -/
def numStep (t : Table) : Except String Table :=
  (renameMap.map Prod.fst).foldlM (coerceCol isNumericCol numCell (fun _ => Cell.num 0)) t

/-- Lines 101–108: the categorical standardization loop. -/
def catStep (t : Table) : Except String Table :=
  categoricalCols.foldlM
    (coerceCol (fun _ => true) catCell (fun col => Cell.str (sentinel col))) t

/-- Lines 110–111: fiscal-year coercion (only when the column exists; a
duplicated label again makes `pd.to_numeric` raise). -/
def yearStep (t : Table) : Except String Table :=
  match countLabel t "ANO_REFER" with
  | 0 => .ok t
  | 1 => .ok (mapCol "ANO_REFER" (List.map yearCell) t)
  | _ => .error "duplicate column label ANO_REFER"

/-- The whole post-parse body of the `try` block of `load_data`. -/
def pipeline (t : Table) : Except String Table := do
  let t4 ← numStep (resolveCols t)
  let t5 ← catStep t4
  yearStep t5

/-- `pd.DataFrame()`: the explicit empty result of the `except` branch. -/
def emptyTable : Table := []

/-- `load_data` from the point where a parsed table exists: any exception in
the processing body is caught and the empty table returned (lines 114–116). -/
def loadTable (t : Table) : Table :=
  match pipeline t with
  | .ok u => u
  | .error _ => emptyTable

/-! ## Byte-level ingestion (`pd.read_csv(url, sep=',', encoding='utf-8-sig',
engine='python')`, line 23) -/

/-- A valid UTF-8 continuation byte. -/
def utf8Cont (b : Nat) : Bool := 0x80 ≤ b && b ≤ 0xBF

/-- Strict UTF-8 decoding of a byte list (overlong encodings, surrogates and
out-of-range sequences are rejected, as Python's `utf-8` codec does). -/
def utf8Decode : List Nat → Option (List Char)
  | [] => some []
  | b0 :: rest =>
    if b0 < 0x80 then (utf8Decode rest).map (Char.ofNat b0 :: ·)
    else if b0 < 0xC2 then none
    else if b0 ≤ 0xDF then
      match rest with
      | b1 :: rest' =>
        if utf8Cont b1 then
          (utf8Decode rest').map (Char.ofNat ((b0 - 0xC0) * 64 + (b1 - 0x80)) :: ·)
        else none
      | [] => none
    else if b0 ≤ 0xEF then
      match rest with
      | b1 :: b2 :: rest' =>
        let lo1 := if b0 = 0xE0 then 0xA0 else 0x80
        let hi1 := if b0 = 0xED then 0x9F else 0xBF
        if lo1 ≤ b1 && b1 ≤ hi1 && utf8Cont b2 then
          (utf8Decode rest').map
            (Char.ofNat ((b0 - 0xE0) * 4096 + (b1 - 0x80) * 64 + (b2 - 0x80)) :: ·)
        else none
      | _ => none
    else if b0 ≤ 0xF4 then
      match rest with
      | b1 :: b2 :: b3 :: rest' =>
        let lo1 := if b0 = 0xF0 then 0x90 else 0x80
        let hi1 := if b0 = 0xF4 then 0x8F else 0xBF
        if lo1 ≤ b1 && b1 ≤ hi1 && utf8Cont b2 && utf8Cont b3 then
          (utf8Decode rest').map
            (Char.ofNat ((b0 - 0xF0) * 262144 + (b1 - 0x80) * 4096 +
              (b2 - 0x80) * 64 + (b3 - 0x80)) :: ·)
        else none
      | _ => none
    else none

/-- The UTF-8 byte-order mark. -/
def bomBytes : List Nat := [0xEF, 0xBB, 0xBF]

/-- Python's `utf-8-sig` codec: a leading BOM, if present, is stripped; the
rest is strict UTF-8.  This is the one and only encoding `load_data` tries. -/
def utf8sigDecode (bs : List Nat) : Option (List Char) :=
  match bs with
  | 0xEF :: 0xBB :: 0xBF :: rest => utf8Decode rest
  | _ => utf8Decode bs

/-- Split a character list at every occurrence of `sep`. -/
def splitOnChar (sep : Char) : List Char → List (List Char)
  | [] => [[]]
  | c :: cs =>
    let r := splitOnChar sep cs
    if c = sep then [] :: r
    else
      match r with
      | f :: rest => (c :: f) :: rest
      | [] => [[c]]

/-- Pandas' default NA markers: a field equal to one of these becomes `NaN`. -/
def naValues : List String :=
  ["", "#N/A", "#N/A N/A", "#NA", "-1.#IND", "-1.#QNAN", "-NaN", "-nan",
   "1.#IND", "1.#QNAN", "<NA>", "N/A", "NA", "NULL", "NaN", "None",
   "n/a", "nan", "null"]

/-- One CSV field as a cell. -/
def fieldCell (f : List Char) : Cell :=
  if naValues.contains (⟨f⟩ : String) then Cell.null else Cell.str ⟨f⟩

/-- Comma-separated parse of decoded text into a column-oriented table:
lines split on `'\n'` (blank lines skipped, as pandas does), fields on `','`.
A data row with more fields than the header makes the python engine raise
(`none`); shorter rows are padded with `NaN`.  An empty file raises
(`EmptyDataError`).  (Quoting and pandas' deduplication of repeated header
names are not exercised by this data and are not modelled.) -/
def parseCsv (content : List Char) : Option Table :=
  match (splitOnChar '\n' content).filter (· ≠ []) with
  | [] => none
  | hd :: rows =>
    let hs := splitOnChar ',' hd
    let rcells := rows.map (splitOnChar ',')
    if rcells.all (fun r => r.length ≤ hs.length) then
      some ((List.range hs.length).map (fun i =>
        ((⟨(hs.get? i).getD []⟩ : String),
         rcells.map (fun r => ((r.get? i).map fieldCell).getD Cell.null))))
    else none

/-- `pd.read_csv` on the fetched bytes: decode as `utf-8-sig`, then parse as
comma-separated text; `none` models the call raising. -/
def readCsv (bs : List Nat) : Option Table := (utf8sigDecode bs).bind parseCsv

/-- `load_data` entire: the source is `none` when the fetch itself fails
(the network exception is raised inside the `try`), otherwise the raw bytes.
Every failure path lands in the `except` branch and yields the empty table;
no exception escapes. -/
def load_data (src : Option (List Nat)) : Table :=
  match src with
  | none => emptyTable
  | some bs =>
    match readCsv bs with
    | none => emptyTable
    | some t => loadTable t

/-! ## Basic table lemmas -/

theorem mem_headers_iff {t : Table} {l : String} :
    l ∈ headers t ↔ ∃ c ∈ t, c.1 = l :=
  List.mem_map

theorem find?_eq_none_of_not_mem {t : Table} {l : String} (h : l ∉ headers t) :
    t.find? (fun c : Col => decide (c.1 = l)) = none := by
  rw [List.find?_eq_none]
  intro c hc hp
  exact h (mem_headers_iff.mpr ⟨c, hc, by simpa using hp⟩)

theorem getCol_eq_none_iff {t : Table} {l : String} :
    getCol t l = none ↔ l ∉ headers t := by
  constructor
  · intro h hmem
    obtain ⟨c, hc, hl⟩ := mem_headers_iff.mp hmem
    unfold getCol at h
    rcases hf : t.find? (fun c : Col => decide (c.1 = l)) with _ | d
    · rw [List.find?_eq_none] at hf
      exact hf c hc (by simpa using hl)
    · rw [hf] at h; cases h
  · intro h
    unfold getCol
    rw [find?_eq_none_of_not_mem h]
    rfl

theorem getCol_isSome_of_mem {t : Table} {l : String} (h : l ∈ headers t) :
    ∃ cs, getCol t l = some cs := by
  cases hg : getCol t l with
  | none => exact absurd (getCol_eq_none_iff.mp hg) (not_not_intro h)
  | some cs => exact ⟨cs, rfl⟩

theorem mem_of_getCol_eq_some {t : Table} {l : String} {cs : List Cell}
    (h : getCol t l = some cs) : l ∈ headers t := by
  by_contra hmem
  rw [getCol_eq_none_iff.mpr hmem] at h
  cases h

theorem countLabel_eq_zero_iff {t : Table} {l : String} :
    countLabel t l = 0 ↔ l ∉ headers t := by
  simp [countLabel, List.count_eq_zero]

theorem getCol_cons (d : Col) (ts : Table) (l : String) :
    getCol (d :: ts) l = if d.1 = l then some d.2 else getCol ts l := by
  unfold getCol
  rw [List.find?_cons]
  by_cases h : d.1 = l <;> simp [h]

theorem countLabel_cons (d : Col) (ts : Table) (l : String) :
    countLabel (d :: ts) l = countLabel ts l + (if d.1 = l then 1 else 0) := by
  by_cases h : d.1 = l <;> simp [countLabel, headers, List.count_cons, h]

/-- Headers of `mapCol` are unchanged. -/
theorem headers_mapCol (col : String) (f : List Cell → List Cell) (t : Table) :
    headers (mapCol col f t) = headers t := by
  simp only [headers, mapCol, List.map_map]
  refine List.map_congr_left (fun c _ => ?_)
  by_cases h : c.1 = col <;> simp [h]

theorem countLabel_mapCol (col : String) (f : List Cell → List Cell)
    (t : Table) (l : String) :
    countLabel (mapCol col f t) l = countLabel t l := by
  simp [countLabel, headers_mapCol]

/-- `mapCol` on the looked-up column transforms exactly its cells. -/
theorem getCol_mapCol_self (col : String) (f : List Cell → List Cell) (t : Table) :
    getCol (mapCol col f t) col = (getCol t col).map f := by
  unfold getCol mapCol
  rw [List.find?_map]
  have hp : ((fun c : Col => decide (c.1 = col)) ∘
      (fun c : Col => if c.1 = col then (c.1, f c.2) else c)) =
      (fun c : Col => decide (c.1 = col)) := by
    funext c; by_cases h : c.1 = col <;> simp [h]
  rw [hp]
  cases hf : t.find? (fun c : Col => decide (c.1 = col)) with
  | none => rfl
  | some c =>
    have hc : c.1 = col := by simpa using List.find?_some hf
    simp [hc]

/-- `mapCol` leaves other labels' columns untouched. -/
theorem getCol_mapCol_ne (col : String) (f : List Cell → List Cell) (t : Table)
    {l : String} (h : l ≠ col) :
    getCol (mapCol col f t) l = getCol t l := by
  unfold getCol mapCol
  rw [List.find?_map]
  have hp : ((fun c : Col => decide (c.1 = l)) ∘
      (fun c : Col => if c.1 = col then (c.1, f c.2) else c)) =
      (fun c : Col => decide (c.1 = l)) := by
    funext c; by_cases hc : c.1 = col <;> simp [hc]
  rw [hp]
  cases hf : t.find? (fun c : Col => decide (c.1 = l)) with
  | none => rfl
  | some c =>
    have hc : c.1 = l := by simpa using List.find?_some hf
    have : ¬ c.1 = col := by rw [hc]; exact h
    simp [this]

theorem nrows_mapCol (col : String) (tf : Cell → Cell) (t : Table) :
    nrows (mapCol col (List.map tf) t) = nrows t := by
  cases t with
  | nil => rfl
  | cons c ts =>
    show nrows (List.map _ (c :: ts)) = _
    by_cases h : c.1 = col <;> simp [nrows, h]

theorem countLabel_append (t : Table) (x : Col) (l : String) :
    countLabel (t ++ [x]) l = countLabel t l + (if x.1 = l then 1 else 0) := by
  simp only [countLabel, headers, List.map_append, List.count_append, List.map]
  by_cases h : x.1 = l <;> simp [h, List.count_cons, List.count_nil]

theorem getCol_append_of_ne (t : Table) (x : Col) {l : String} (h : x.1 ≠ l) :
    getCol (t ++ [x]) l = getCol t l := by
  unfold getCol
  rw [List.find?_append]
  have : List.find? (fun c : Col => decide (c.1 = l)) [x] = none := by
    simp [List.find?, h]
  rw [this]
  cases t.find? (fun c : Col => decide (c.1 = l)) <;> rfl

theorem getCol_append_self (t : Table) (l : String) (cs : List Cell)
    (h : l ∉ headers t) :
    getCol (t ++ [(l, cs)]) l = some cs := by
  unfold getCol
  rw [List.find?_append, find?_eq_none_of_not_mem h]
  simp [List.find?]

theorem nrows_append_replicate (t : Table) (l : String) (x : Cell) :
    nrows (t ++ [(l, List.replicate (nrows t) x)]) = nrows t := by
  cases t with
  | nil => simp [nrows]
  | cons c ts => rfl

/-- A label occurring exactly once pins down the cells of every column that
carries it. -/
theorem cells_eq_of_countLabel_one {t : Table} {col : String} {cs : List Cell}
    (h1 : countLabel t col = 1) (hg : getCol t col = some cs) :
    ∀ c ∈ t, c.1 = col → c.2 = cs := by
  induction t with
  | nil => intro c hc; cases hc
  | cons d ts ih =>
    intro c hc hl
    rw [getCol_cons] at hg
    rw [countLabel_cons] at h1
    rcases List.mem_cons.mp hc with rfl | hc'
    · rw [if_pos hl] at hg
      exact Option.some.inj hg
    · by_cases hd : d.1 = col
      · exfalso
        have h2 : col ∈ headers ts := mem_headers_iff.mpr ⟨c, hc', hl⟩
        have h3 : countLabel ts col ≠ 0 :=
          fun h0 => (countLabel_eq_zero_iff.mp h0) h2
        rw [if_pos hd] at h1
        omega
      · rw [if_neg hd] at hg h1
        exact ih (by omega) hg c hc' hl

/-! ## Lemmas about one coercion-loop iteration -/

section CoerceCol

variable (cond : String → Bool) (tf : Cell → Cell) (fill : String → Cell)

theorem coerceCol_cond_false {t : Table} {col : String} (h : cond col = false) :
    coerceCol cond tf fill t col = .ok t := by
  unfold coerceCol
  rw [h]
  rfl

theorem coerceCol_ok_nrows {t t' : Table} {col : String}
    (h : coerceCol cond tf fill t col = .ok t') : nrows t' = nrows t := by
  unfold coerceCol at h
  by_cases hc : cond col
  · rw [hc] at h
    simp only [if_true] at h
    rcases hn : countLabel t col with _ | n
    · rw [hn] at h
      cases h
      exact nrows_append_replicate t col (fill col)
    · rcases n with _ | n
      · rw [hn] at h
        cases h
        exact nrows_mapCol col tf t
      · rw [hn] at h
        cases h
  · rw [if_neg hc] at h
    cases h
    rfl

/-- A coercion iteration for key `col` leaves every other label's count and
column untouched (it also does so when its condition is off). -/
theorem coerceCol_preserve {t t' : Table} {col : String}
    (h : coerceCol cond tf fill t col = .ok t') {l : String} (hne : l ≠ col) :
    getCol t' l = getCol t l ∧ countLabel t' l = countLabel t l := by
  unfold coerceCol at h
  by_cases hc : cond col
  · rw [hc] at h
    simp only [if_true] at h
    rcases hn : countLabel t col with _ | n
    · rw [hn] at h
      cases h
      refine ⟨getCol_append_of_ne t _ (fun he => hne he.symm), ?_⟩
      rw [countLabel_append, if_neg (fun he : col = l => hne he.symm)]
      omega
    · rcases n with _ | n
      · rw [hn] at h
        cases h
        exact ⟨getCol_mapCol_ne col _ t hne, countLabel_mapCol col _ t l⟩
      · rw [hn] at h
        cases h
  · rw [if_neg hc] at h
    cases h
    exact ⟨rfl, rfl⟩

/-- With its condition on, an iteration that returns normally implies the
label was not duplicated, and its result column is characterized. -/
theorem coerceCol_self {t t' : Table} {col : String} (hcond : cond col = true)
    (h : coerceCol cond tf fill t col = .ok t') :
    countLabel t col ≤ 1 ∧ countLabel t' col = 1 ∧
      ((countLabel t col = 0 ∧
          getCol t' col = some (List.replicate (nrows t) (fill col))) ∨
        (∃ cs, getCol t col = some cs ∧ countLabel t col = 1 ∧
          getCol t' col = some (cs.map tf))) := by
  unfold coerceCol at h
  rw [hcond] at h
  simp only [if_true] at h
  rcases hn : countLabel t col with _ | n
  · rw [hn] at h
    cases h
    have hmem : col ∉ headers t := countLabel_eq_zero_iff.mp hn
    refine ⟨by omega, ?_, Or.inl ⟨rfl, getCol_append_self t col _ hmem⟩⟩
    rw [countLabel_append, hn]
    simp
  · rcases n with _ | n
    · rw [hn] at h
      cases h
      obtain ⟨cs, hcs⟩ := getCol_isSome_of_mem
        (l := col) (t := t) (by
          by_contra hmem
          rw [countLabel_eq_zero_iff.mpr hmem] at hn
          cases hn)
      refine ⟨by omega, ?_, Or.inr ⟨cs, hcs, by omega, ?_⟩⟩
      · rw [countLabel_mapCol, hn]
      · rw [getCol_mapCol_self, hcs]
        rfl
    · rw [hn] at h
      cases h

/-- With its condition on and a duplicated label, the iteration raises. -/
theorem coerceCol_error_of_dup {t : Table} {col : String}
    (hcond : cond col = true) (hdup : 2 ≤ countLabel t col) :
    ∃ e, coerceCol cond tf fill t col = .error e := by
  unfold coerceCol
  rw [hcond]
  simp only [if_true]
  rcases hn : countLabel t col with _ | n
  · omega
  · rcases n with _ | n
    · omega
    · exact ⟨_, rfl⟩

end CoerceCol

/-! ## Lemmas about whole coercion loops (`foldlM` over the key list) -/

section Fold

variable (cond : String → Bool) (tf : Cell → Cell) (fill : String → Cell)

/-- A coercion loop whose keys never process label `l` (they differ from it,
or the condition is off at it) leaves `l`'s column, count and the row count
unchanged. -/
theorem fold_preserve {keys : List String} {t t' : Table}
    (h : keys.foldlM (coerceCol cond tf fill) t = .ok t')
    {l : String} (hl : ∀ k ∈ keys, k = l → cond k = false) :
    getCol t' l = getCol t l ∧ countLabel t' l = countLabel t l ∧
      nrows t' = nrows t := by
  induction keys generalizing t with
  | nil => cases h; exact ⟨rfl, rfl, rfl⟩
  | cons k ks ih =>
    rw [List.foldlM_cons] at h
    cases hk : coerceCol cond tf fill t k with
    | error e =>
      rw [hk] at h
      replace h : (Except.error e : Except String Table) = .ok t' := h
      simp at h
    | ok t₁ =>
      rw [hk] at h
      replace h : ks.foldlM (coerceCol cond tf fill) t₁ = .ok t' := h
      by_cases hkl : k = l
      · have hcf : cond k = false := hl k (List.mem_cons_self k ks) hkl
        rw [coerceCol_cond_false cond tf fill hcf] at hk
        cases hk
        exact ih h (fun k' hk' => hl k' (List.mem_cons_of_mem k hk'))
      · obtain ⟨hg, hc⟩ := coerceCol_preserve cond tf fill hk
          (fun he : l = k => hkl he.symm)
        have hn := coerceCol_ok_nrows cond tf fill hk
        obtain ⟨ihg, ihc, ihn⟩ := ih h (fun k' hk' => hl k' (List.mem_cons_of_mem k hk'))
        exact ⟨ihg.trans hg, ihc.trans hc, ihn.trans hn⟩

/-- Characterization of a coercion loop's effect at one of its keys: the key
was not duplicated, ends up present exactly once, and its output column is
either the absent-case fill or the transformed original cells. -/
theorem fold_getCol {keys : List String} {t t' : Table}
    (h : keys.foldlM (coerceCol cond tf fill) t = .ok t')
    {col : String} (hmem : col ∈ keys) (hcond : cond col = true)
    (hnodup : keys.Nodup) :
    countLabel t col ≤ 1 ∧ countLabel t' col = 1 ∧
      ((countLabel t col = 0 ∧
          getCol t' col = some (List.replicate (nrows t) (fill col))) ∨
        (∃ cs, getCol t col = some cs ∧ countLabel t col = 1 ∧
          getCol t' col = some (cs.map tf))) := by
  induction keys generalizing t with
  | nil => cases hmem
  | cons k ks ih =>
    rw [List.foldlM_cons] at h
    cases hk : coerceCol cond tf fill t k with
    | error e =>
      rw [hk] at h
      replace h : (Except.error e : Except String Table) = .ok t' := h
      simp at h
    | ok t₁ =>
      rw [hk] at h
      replace h : ks.foldlM (coerceCol cond tf fill) t₁ = .ok t' := h
      obtain ⟨hnot, hnodup'⟩ := List.nodup_cons.mp hnodup
      by_cases hkc : k = col
      · subst hkc
        obtain ⟨hle, hone, hchar⟩ := coerceCol_self cond tf fill hcond hk
        obtain ⟨pg, pc, -⟩ := fold_preserve cond tf fill h
          (l := k) (fun k' hk' he => absurd (he ▸ hk') hnot)
        refine ⟨hle, pc.trans hone, ?_⟩
        rcases hchar with ⟨h0, hrep⟩ | ⟨cs, hcs, h1, hmap⟩
        · exact Or.inl ⟨h0, pg.trans hrep⟩
        · exact Or.inr ⟨cs, hcs, h1, pg.trans hmap⟩
      · have hmem' : col ∈ ks := by
          rcases List.mem_cons.mp hmem with he | hm
          · exact absurd he.symm hkc
          · exact hm
        obtain ⟨hg, hc⟩ := coerceCol_preserve cond tf fill hk
          (fun he : col = k => hkc he.symm)
        have hn := coerceCol_ok_nrows cond tf fill hk
        obtain ⟨ile, ione, ichar⟩ := ih h hmem' hnodup'
        refine ⟨hc ▸ ile, ione, ?_⟩
        rcases ichar with ⟨h0, hrep⟩ | ⟨cs, hcs, h1, hmap⟩
        · exact Or.inl ⟨hc ▸ h0, by rw [hrep, hn]⟩
        · exact Or.inr ⟨cs, hg ▸ hcs, hc ▸ h1, hmap⟩

/-- A loop that reaches a duplicated key with the condition on raises. -/
theorem fold_error_of_dup {keys : List String} {t : Table} {col : String}
    (hmem : col ∈ keys) (hcond : cond col = true)
    (hdup : 2 ≤ countLabel t col) :
    ∃ e, keys.foldlM (coerceCol cond tf fill) t = .error e := by
  induction keys generalizing t with
  | nil => cases hmem
  | cons k ks ih =>
    by_cases hkc : k = col
    · subst hkc
      obtain ⟨e, he⟩ := coerceCol_error_of_dup cond tf fill hcond hdup
      refine ⟨e, ?_⟩
      rw [List.foldlM_cons, he]
      rfl
    · have hmem' : col ∈ ks := by
        rcases List.mem_cons.mp hmem with he | hm
        · exact absurd he.symm hkc
        · exact hm
      rw [List.foldlM_cons]
      cases hk : coerceCol cond tf fill t k with
      | error e => exact ⟨e, rfl⟩
      | ok t₁ =>
        obtain ⟨-, hc⟩ := coerceCol_preserve cond tf fill hk
          (fun he : col = k => hkc he.symm)
        obtain ⟨e, he⟩ := ih hmem' (hc ▸ hdup)
        exact ⟨e, he⟩

/-- Any header of a loop's output is a header of its input or one of the
loop's keys (with the condition on). -/
theorem fold_headers {keys : List String} {t t' : Table}
    (h : keys.foldlM (coerceCol cond tf fill) t = .ok t') :
    ∀ l ∈ headers t', l ∈ headers t ∨ (l ∈ keys ∧ cond l = true) := by
  induction keys generalizing t with
  | nil => cases h; exact fun l hl => Or.inl hl
  | cons k ks ih =>
    rw [List.foldlM_cons] at h
    cases hk : coerceCol cond tf fill t k with
    | error e =>
      rw [hk] at h
      replace h : (Except.error e : Except String Table) = .ok t' := h
      simp at h
    | ok t₁ =>
      rw [hk] at h
      replace h : ks.foldlM (coerceCol cond tf fill) t₁ = .ok t' := h
      intro l hl
      rcases ih h l hl with hmem | ⟨hmem, hcnd⟩
      · -- reduce membership in `headers t₁` through the single step
        unfold coerceCol at hk
        by_cases hc : cond k
        · rw [hc] at hk
          simp only [if_true] at hk
          rcases hn : countLabel t k with _ | n
          · rw [hn] at hk
            cases hk
            rw [headers] at hmem
            rw [List.map_append] at hmem
            rcases List.mem_append.mp hmem with hm | hm
            · exact Or.inl hm
            · simp only [List.map, List.mem_singleton] at hm
              exact Or.inr ⟨hm ▸ List.mem_cons_self k ks, hm ▸ hc⟩
          · rcases n with _ | n
            · rw [hn] at hk
              cases hk
              rw [headers_mapCol] at hmem
              exact Or.inl hmem
            · rw [hn] at hk
              cases hk
        · rw [if_neg hc] at hk
          cases hk
          exact Or.inl hmem
      · exact Or.inr ⟨List.mem_cons_of_mem k hmem, hcnd⟩

/-- A loop all of whose iterations are identity steps returns its input. -/
theorem fold_id {keys : List String} {t : Table}
    (h : ∀ k ∈ keys, coerceCol cond tf fill t k = .ok t) :
    keys.foldlM (coerceCol cond tf fill) t = .ok t := by
  induction keys with
  | nil => rfl
  | cons k ks ih =>
    rw [List.foldlM_cons, h k (List.mem_cons_self k ks)]
    exact ih (fun k' hk' => h k' (List.mem_cons_of_mem k hk'))

end Fold

/-! ## Facts about the concrete schema lists (settled by computation) -/

theorem catCols_not_numeric : ∀ col ∈ categoricalCols, isNumericCol col = false := by
  decide

theorem anoRefer_not_numeric : isNumericCol "ANO_REFER" = false := by decide

theorem renameKeys_nodup : (renameMap.map Prod.fst).Nodup := by decide

theorem catCols_nodup : categoricalCols.Nodup := by decide

theorem anoRefer_not_cat : "ANO_REFER" ∉ categoricalCols := by decide

theorem catCols_mem_keys : ∀ col ∈ categoricalCols, col ∈ renameMap.map Prod.fst := by
  decide

/-! ## Decomposing the pipeline -/

theorem pipeline_ok_elim {t u : Table} (h : pipeline t = .ok u) :
    ∃ t4 t5, numStep (resolveCols t) = .ok t4 ∧ catStep t4 = .ok t5 ∧
      yearStep t5 = .ok u := by
  unfold pipeline at h
  cases h4 : numStep (resolveCols t) with
  | error e =>
    rw [h4] at h
    replace h : (Except.error e : Except String Table) = .ok u := h
    simp at h
  | ok t4 =>
    rw [h4] at h
    replace h : catStep t4 >>= yearStep = .ok u := h
    cases h5 : catStep t4 with
    | error e =>
      rw [h5] at h
      replace h : (Except.error e : Except String Table) = .ok u := h
      simp at h
    | ok t5 =>
      rw [h5] at h
      replace h : yearStep t5 = .ok u := h
      exact ⟨t4, t5, rfl, h5, h⟩

theorem pipeline_ok_intro {t t4 t5 u : Table}
    (h4 : numStep (resolveCols t) = .ok t4) (h5 : catStep t4 = .ok t5)
    (h6 : yearStep t5 = .ok u) : pipeline t = .ok u := by
  unfold pipeline
  rw [h4]
  show catStep t4 >>= yearStep = .ok u
  rw [h5]
  exact h6

theorem pipeline_error_num {t : Table} {e : String}
    (h4 : numStep (resolveCols t) = .error e) : pipeline t = .error e := by
  unfold pipeline
  rw [h4]
  rfl

theorem pipeline_error_cat {t t4 : Table} {e : String}
    (h4 : numStep (resolveCols t) = .ok t4) (h5 : catStep t4 = .error e) :
    pipeline t = .error e := by
  unfold pipeline
  rw [h4]
  show catStep t4 >>= yearStep = .error e
  rw [h5]
  rfl

theorem pipeline_error_year {t t4 t5 : Table} {e : String}
    (h4 : numStep (resolveCols t) = .ok t4) (h5 : catStep t4 = .ok t5)
    (h6 : yearStep t5 = .error e) : pipeline t = .error e := by
  unfold pipeline
  rw [h4]
  show catStep t4 >>= yearStep = .error e
  rw [h5]
  exact h6

theorem loadTable_of_error {t : Table} {e : String} (h : pipeline t = .error e) :
    loadTable t = emptyTable := by
  unfold loadTable
  rw [h]

/-! ## `yearStep` lemmas -/

theorem yearStep_preserve {t t' : Table} (h : yearStep t = .ok t')
    {l : String} (hl : l ≠ "ANO_REFER") :
    getCol t' l = getCol t l ∧ countLabel t' l = countLabel t l ∧
      nrows t' = nrows t := by
  unfold yearStep at h
  rcases hn : countLabel t "ANO_REFER" with _ | n
  · rw [hn] at h
    cases h
    exact ⟨rfl, rfl, rfl⟩
  · rcases n with _ | n
    · rw [hn] at h
      cases h
      exact ⟨getCol_mapCol_ne _ _ t hl, countLabel_mapCol _ _ t l,
        nrows_mapCol _ _ t⟩
    · rw [hn] at h
      cases h

theorem yearStep_headers {t t' : Table} (h : yearStep t = .ok t') :
    headers t' = headers t := by
  unfold yearStep at h
  rcases hn : countLabel t "ANO_REFER" with _ | n
  · rw [hn] at h
    cases h
    rfl
  · rcases n with _ | n
    · rw [hn] at h
      cases h
      exact headers_mapCol _ _ t
    · rw [hn] at h
      cases h

theorem yearStep_ok_le_one {t t' : Table} (h : yearStep t = .ok t') :
    countLabel t "ANO_REFER" ≤ 1 := by
  unfold yearStep at h
  rcases hn : countLabel t "ANO_REFER" with _ | n
  · omega
  · rcases n with _ | n
    · omega
    · rw [hn] at h
      cases h

theorem yearStep_absent {t t' : Table} (h : yearStep t = .ok t')
    (h0 : countLabel t "ANO_REFER" = 0) : t' = t := by
  unfold yearStep at h
  rw [h0] at h
  cases h
  rfl

theorem yearStep_self {t t' : Table} (h : yearStep t = .ok t') {cs : List Cell}
    (hg : getCol t "ANO_REFER" = some cs) :
    getCol t' "ANO_REFER" = some (cs.map yearCell) := by
  unfold yearStep at h
  rcases hn : countLabel t "ANO_REFER" with _ | n
  · exact absurd (mem_of_getCol_eq_some hg) (countLabel_eq_zero_iff.mp hn)
  · rcases n with _ | n
    · rw [hn] at h
      cases h
      rw [getCol_mapCol_self, hg]
      rfl
    · rw [hn] at h
      cases h

theorem yearStep_error_of_dup {t : Table}
    (hdup : 2 ≤ countLabel t "ANO_REFER") :
    ∃ e, yearStep t = .error e := by
  unfold yearStep
  rcases hn : countLabel t "ANO_REFER" with _ | n
  · omega
  · rcases n with _ | n
    · omega
    · exact ⟨_, rfl⟩

/-! ## Step corollaries for the concrete loops -/

/-- The numeric loop never touches a categorical column's label. -/
theorem numStep_preserve_cat {t t' : Table} (h : numStep t = .ok t')
    {col : String} (hcol : col ∈ categoricalCols) :
    getCol t' col = getCol t col ∧ countLabel t' col = countLabel t col ∧
      nrows t' = nrows t :=
  fold_preserve _ _ _ h (fun k _ he => he ▸ catCols_not_numeric col hcol)

/-- The numeric loop never touches the fiscal-year label. -/
theorem numStep_preserve_ano {t t' : Table} (h : numStep t = .ok t') :
    getCol t' "ANO_REFER" = getCol t "ANO_REFER" ∧
      countLabel t' "ANO_REFER" = countLabel t "ANO_REFER" ∧
      nrows t' = nrows t :=
  fold_preserve _ _ _ h (fun k _ he => he ▸ anoRefer_not_numeric)

/-- Characterization of a numeric canonical column after the numeric loop. -/
theorem numStep_char {t t' : Table} (h : numStep t = .ok t')
    {col : String} (hmem : col ∈ renameMap.map Prod.fst)
    (hnum : isNumericCol col = true) :
    countLabel t col ≤ 1 ∧ countLabel t' col = 1 ∧
      ((countLabel t col = 0 ∧
          getCol t' col = some (List.replicate (nrows t) (Cell.num 0))) ∨
        (∃ cs, getCol t col = some cs ∧ countLabel t col = 1 ∧
          getCol t' col = some (cs.map numCell))) :=
  fold_getCol _ _ _ h hmem hnum renameKeys_nodup

/-- The categorical loop never touches a non-categorical label. -/
theorem catStep_preserve {t t' : Table} (h : catStep t = .ok t')
    {l : String} (hl : l ∉ categoricalCols) :
    getCol t' l = getCol t l ∧ countLabel t' l = countLabel t l ∧
      nrows t' = nrows t :=
  fold_preserve _ _ _ h (fun k hk he => absurd (he ▸ hk) hl)

/-- Characterization of a categorical column after the categorical loop. -/
theorem catStep_char {t t' : Table} (h : catStep t = .ok t')
    {col : String} (hmem : col ∈ categoricalCols) :
    countLabel t col ≤ 1 ∧ countLabel t' col = 1 ∧
      ((countLabel t col = 0 ∧
          getCol t' col = some (List.replicate (nrows t) (Cell.str (sentinel col)))) ∨
        (∃ cs, getCol t col = some cs ∧ countLabel t col = 1 ∧
          getCol t' col = some (cs.map catCell))) :=
  fold_getCol _ _ _ h hmem rfl catCols_nodup

/-! ## Alias-renaming lemmas -/

/-- All aliases across the whole schema are pairwise distinct. -/
theorem allAliases_nodup : (renameMap.flatMap Prod.snd).Nodup := by decide

/-- There is only one schema entry per canonical name. -/
theorem renameMap_fst_nodup : (renameMap.map Prod.fst).Nodup := renameKeys_nodup

/-- Reduction helpers for `buildRenameGen` on a cons cell. -/
theorem buildRenameGen_cons_none {p : String × List String}
    {rm : List (String × List String)} {hs : List String}
    (hp : p.2.find? (fun a => hs.contains a) = none) :
    buildRenameGen (p :: rm) hs = buildRenameGen rm hs := by
  unfold buildRenameGen
  simp only [List.filterMap_cons, hp, Option.map_none']

theorem buildRenameGen_cons_some {p : String × List String}
    {rm : List (String × List String)} {hs : List String} {a0 : String}
    (hp : p.2.find? (fun a => hs.contains a) = some a0) :
    buildRenameGen (p :: rm) hs = (a0, p.1) :: buildRenameGen rm hs := by
  unfold buildRenameGen
  simp only [List.filterMap_cons, hp, Option.map_some']

theorem lookup_cons_self {a b : String} {es : List (String × String)} :
    List.lookup a ((a, b) :: es) = some b := by
  simp [List.lookup_cons]

theorem lookup_cons_ne {a k b : String} {es : List (String × String)}
    (h : a ≠ k) : List.lookup a ((k, b) :: es) = List.lookup a es := by
  have hb : (a == k) = false := beq_eq_false_iff_ne.mpr h
  simp [List.lookup_cons, hb]

/-- The chosen alias of a field is looked up to that field's canonical name. -/
theorem lookup_buildRenameGen_chosen {rm : List (String × List String)}
    (hnd : (rm.flatMap Prod.snd).Nodup) {c : String} {as : List String}
    (hmem : (c, as) ∈ rm) {hs : List String} {a : String}
    (hfind : as.find? (fun x => hs.contains x) = some a) :
    List.lookup a (buildRenameGen rm hs) = some c := by
  induction rm with
  | nil => cases hmem
  | cons p rm' ih =>
    rw [List.flatMap_cons, List.nodup_append] at hnd
    obtain ⟨-, hnd', hdisj⟩ := hnd
    rcases List.mem_cons.mp hmem with heq | hmem'
    · subst heq
      rw [buildRenameGen_cons_some (p := (c, as)) hfind]
      exact lookup_cons_self
    · have ha : a ∈ as := List.mem_of_find?_eq_some hfind
      have hbind : a ∈ rm'.flatMap Prod.snd :=
        List.mem_flatMap.mpr ⟨(c, as), hmem', ha⟩
      cases hp : p.2.find? (fun x => hs.contains x) with
      | none =>
        rw [buildRenameGen_cons_none hp]
        exact ih hnd' hmem'
      | some a0 =>
        have ha0 : a0 ∈ p.2 := List.mem_of_find?_eq_some hp
        have hne : a ≠ a0 := fun he => hdisj (he ▸ ha0) hbind
        rw [buildRenameGen_cons_some hp, lookup_cons_ne hne]
        exact ih hnd' hmem'

/-- If no entry's chosen alias is `a`, then `a` is not a key of the dict. -/
theorem lookup_buildRenameGen_none {rm : List (String × List String)}
    {hs : List String} {a : String}
    (h : ∀ p ∈ rm, ∀ x, p.2.find? (fun x => hs.contains x) = some x → x ≠ a) :
    List.lookup a (buildRenameGen rm hs) = none := by
  induction rm with
  | nil => rfl
  | cons p rm' ih =>
    cases hp : p.2.find? (fun x => hs.contains x) with
    | none =>
      rw [buildRenameGen_cons_none hp]
      exact ih (fun q hq => h q (List.mem_cons_of_mem p hq))
    | some x =>
      have hne : a ≠ x :=
        fun he => (h p (List.mem_cons_self p rm') x hp) he.symm
      rw [buildRenameGen_cons_some hp, lookup_cons_ne hne]
      exact ih (fun q hq => h q (List.mem_cons_of_mem p hq))

/-- A non-chosen alias of a field is not a key of the dict (no other field
can choose it either, since aliases are globally distinct). -/
theorem lookup_buildRenameGen_other {rm : List (String × List String)}
    (hnd : (rm.flatMap Prod.snd).Nodup) {c : String} {as : List String}
    (hmem : (c, as) ∈ rm) {hs : List String} {a a' : String}
    (hfind : as.find? (fun x => hs.contains x) = some a)
    (ha' : a' ∈ as) (hne : a' ≠ a) :
    List.lookup a' (buildRenameGen rm hs) = none := by
  induction rm with
  | nil => cases hmem
  | cons p rm' ih =>
    rw [List.flatMap_cons, List.nodup_append] at hnd
    obtain ⟨-, hnd', hdisj⟩ := hnd
    rcases List.mem_cons.mp hmem with heq | hmem'
    · subst heq
      rw [buildRenameGen_cons_some (p := (c, as)) hfind, lookup_cons_ne hne]
      refine lookup_buildRenameGen_none (fun q hq x hx hxa => ?_)
      have hx2 : x ∈ q.2 := List.mem_of_find?_eq_some hx
      have hxbind : x ∈ rm'.flatMap Prod.snd := List.mem_flatMap.mpr ⟨q, hq, hx2⟩
      exact hdisj (show a' ∈ (c, as).2 from ha') (hxa ▸ hxbind)
    · have hbind : a' ∈ rm'.flatMap Prod.snd :=
        List.mem_flatMap.mpr ⟨(c, as), hmem', ha'⟩
      cases hp : p.2.find? (fun x => hs.contains x) with
      | none =>
        rw [buildRenameGen_cons_none hp]
        exact ih hnd' hmem'
      | some a0 =>
        have ha0 : a0 ∈ p.2 := List.mem_of_find?_eq_some hp
        have hne0 : a' ≠ a0 := fun he => hdisj (he ▸ ha0) hbind
        rw [buildRenameGen_cons_some hp, lookup_cons_ne hne0]
        exact ih hnd' hmem'

/-- Every key of the dict is an alias of the field it maps to, and occurs
among the headers. -/
theorem lookup_buildRenameGen_mem {rm : List (String × List String)}
    {hs : List String} {h c : String}
    (hl : List.lookup h (buildRenameGen rm hs) = some c) :
    ∃ p ∈ rm, p.1 = c ∧ h ∈ p.2 ∧ hs.contains h = true := by
  induction rm with
  | nil => cases hl
  | cons p rm' ih =>
    cases hp : p.2.find? (fun x => hs.contains x) with
    | none =>
      rw [buildRenameGen_cons_none hp] at hl
      obtain ⟨q, hq, hrest⟩ := ih hl
      exact ⟨q, List.mem_cons_of_mem p hq, hrest⟩
    | some x =>
      rw [buildRenameGen_cons_some hp] at hl
      by_cases hx : h = x
      · subst hx
        rw [lookup_cons_self] at hl
        exact ⟨p, List.mem_cons_self p rm', Option.some.inj hl,
          List.mem_of_find?_eq_some hp, List.find?_some hp⟩
      · rw [lookup_cons_ne hx] at hl
        obtain ⟨q, hq, hrest⟩ := ih hl
        exact ⟨q, List.mem_cons_of_mem p hq, hrest⟩

/-- Headers after `applyRename`. -/
theorem headers_applyRename (d : List (String × String)) (t : Table) :
    headers (applyRename d t) =
      (headers t).map (fun h => (List.lookup h d).getD h) := by
  simp [headers, applyRename, List.map_map]

theorem length_applyRename (d : List (String × String)) (t : Table) :
    (applyRename d t).length = t.length := List.length_map t _

theorem length_stripHeaders (t : Table) :
    (stripHeaders t).length = t.length := List.length_map t _

theorem headers_stripHeaders (t : Table) :
    headers (stripHeaders t) = (headers t).map strTrim := by
  simp [headers, stripHeaders, List.map_map]

/-! ## Character and string lemmas -/

theorem toNat_ofNat_valid {n : Nat} (h : n.isValidChar) :
    (Char.ofNat n).toNat = n := by
  unfold Char.ofNat
  rw [dif_pos h]
  rfl

theorem char_eq_of_toNat_eq {a b : Char} (h : a.toNat = b.toNat) : a = b :=
  Char.ext (UInt32.toNat.inj h)

theorem isValidChar_of_lt {n : Nat} (h : n < 0xD800) : n.isValidChar := Or.inl h

theorem char_eq_iff_toNat {c d : Char} : c = d ↔ c.toNat = d.toNat :=
  ⟨fun h => h ▸ rfl, char_eq_of_toNat_eq⟩

theorem toUpper_toNat (c : Char) :
    (Char.toUpper c).toNat =
      if 97 ≤ c.toNat ∧ c.toNat ≤ 122 then c.toNat - 32 else c.toNat := by
  unfold Char.toUpper
  by_cases h : 97 ≤ c.toNat ∧ c.toNat ≤ 122
  · rw [if_pos ⟨h.1, h.2⟩, if_pos h,
      toNat_ofNat_valid (isValidChar_of_lt (by omega))]
  · rw [if_neg (fun hc => h ⟨hc.1, hc.2⟩), if_neg h]

theorem upperChar_toNat (c : Char) :
    (upperChar c).toNat =
      if 0xE0 ≤ c.toNat ∧ c.toNat ≤ 0xFE ∧ c.toNat ≠ 0xF7 then c.toNat - 0x20
      else if 97 ≤ c.toNat ∧ c.toNat ≤ 122 then c.toNat - 32
      else c.toNat := by
  unfold upperChar
  by_cases h : 0xE0 ≤ c.toNat ∧ c.toNat ≤ 0xFE ∧ c.toNat ≠ 0xF7
  · rw [if_pos h, if_pos h, toNat_ofNat_valid (isValidChar_of_lt (by omega))]
  · rw [if_neg h, if_neg h, toUpper_toNat]

theorem isWs_iff {c : Char} :
    isWs c = true ↔ (c.toNat = 0x20 ∨ c.toNat = 0x9 ∨ c.toNat = 0xA ∨
      c.toNat = 0xD ∨ c.toNat = 0x0B ∨ c.toNat = 0x0C ∨ c.toNat = 0xA0) := by
  unfold isWs
  simp [char_eq_iff_toNat, show (' ' : Char).toNat = 32 from rfl,
    show ('\t' : Char).toNat = 9 from rfl, show ('\n' : Char).toNat = 10 from rfl,
    show ('\r' : Char).toNat = 13 from rfl]
  tauto

theorem upperChar_idem (c : Char) : upperChar (upperChar c) = upperChar c := by
  apply char_eq_of_toNat_eq
  have h1 := upperChar_toNat c
  have h2 := upperChar_toNat (upperChar c)
  by_cases hA : 0xE0 ≤ c.toNat ∧ c.toNat ≤ 0xFE ∧ c.toNat ≠ 0xF7
  · rw [if_pos hA] at h1
    rw [h2, h1, if_neg (by omega), if_neg (by omega)]
  · rw [if_neg hA] at h1
    by_cases hB : 97 ≤ c.toNat ∧ c.toNat ≤ 122
    · rw [if_pos hB] at h1
      rw [h2, h1, if_neg (by omega), if_neg (by omega)]
    · rw [if_neg hB] at h1
      rw [h2, h1, if_neg hA, if_neg hB]

theorem isWs_upperChar (c : Char) : isWs (upperChar c) = isWs c := by
  have hu := upperChar_toNat c
  by_cases hw : isWs c = true
  · have hn := isWs_iff.mp hw
    have ht : (upperChar c).toNat = c.toNat := by
      rw [hu, if_neg (by omega), if_neg (by omega)]
    rw [char_eq_of_toNat_eq ht, hw]
  · have hw' : isWs c = false := by
      cases h : isWs c
      · rfl
      · exact absurd h hw
    rw [hw']
    cases h2 : isWs (upperChar c)
    · rfl
    · exfalso
      have hn2 := isWs_iff.mp h2
      by_cases hA : 0xE0 ≤ c.toNat ∧ c.toNat ≤ 0xFE ∧ c.toNat ≠ 0xF7
      · rw [if_pos hA] at hu
        omega
      · rw [if_neg hA] at hu
        by_cases hB : 97 ≤ c.toNat ∧ c.toNat ≤ 122
        · rw [if_pos hB] at hu
          omega
        · rw [if_neg hB] at hu
          exact hw (isWs_iff.mpr (by omega))

theorem dropWhile_idem {α : Type} (p : α → Bool) (l : List α) :
    (l.dropWhile p).dropWhile p = l.dropWhile p := by
  induction l with
  | nil => rfl
  | cons c cs ih =>
    by_cases h : p c
    · rw [List.dropWhile_cons_of_pos h]
      exact ih
    · rw [List.dropWhile_cons_of_neg h, List.dropWhile_cons_of_neg h]

theorem head_dropWhile_not {α : Type} (p : α → Bool) (l : List α) {c : α}
    (h : (l.dropWhile p).head? = some c) : p c = false := by
  induction l with
  | nil => cases h
  | cons d ds ih =>
    by_cases hd : p d
    · rw [List.dropWhile_cons_of_pos hd] at h
      exact ih h
    · rw [List.dropWhile_cons_of_neg hd] at h
      rw [List.head?_cons] at h
      cases h
      exact Bool.eq_false_iff.mpr hd

theorem dropWhile_eq_self {α : Type} (p : α → Bool) (l : List α)
    (h : ∀ c, l.head? = some c → p c = false) : l.dropWhile p = l := by
  cases l with
  | nil => rfl
  | cons d ds =>
    rw [List.dropWhile_cons_of_neg]
    rw [h d rfl]
    simp

theorem getLast?_dropWhile {α : Type} (p : α → Bool) (l : List α)
    (h : l.dropWhile p ≠ []) : (l.dropWhile p).getLast? = l.getLast? := by
  obtain ⟨pre, hpre⟩ := List.dropWhile_suffix (l := l) p
  conv_rhs => rw [← hpre]
  rw [List.getLast?_append]
  cases hg : (l.dropWhile p).getLast? with
  | none => exact absurd (List.getLast?_eq_none_iff.mp hg) h
  | some x => rfl

theorem trimChars_map_upperChar (l : List Char) :
    trimChars (l.map upperChar) = (trimChars l).map upperChar := by
  unfold trimChars dropWs
  have hws : (isWs ∘ upperChar) = isWs := funext isWs_upperChar
  rw [← List.map_reverse, List.dropWhile_map, hws, ← List.map_reverse,
    List.dropWhile_map, hws]

theorem trimChars_idem (l : List Char) : trimChars (trimChars l) = trimChars l := by
  have h1 : dropWs (trimChars l).reverse = (trimChars l).reverse := by
    apply dropWhile_eq_self
    intro c hc
    rw [List.head?_reverse] at hc
    have hne : trimChars l ≠ [] := by
      intro h0
      rw [h0] at hc
      cases hc
    unfold trimChars dropWs at hc hne
    rw [getLast?_dropWhile _ _ hne, List.getLast?_reverse] at hc
    exact head_dropWhile_not _ _ hc
  show dropWs (dropWs (trimChars l).reverse).reverse = trimChars l
  rw [h1, List.reverse_reverse]
  show dropWs (dropWs (dropWs l.reverse).reverse) = dropWs (dropWs l.reverse).reverse
  exact dropWhile_idem _ _

theorem strTrim_idem (s : String) : strTrim (strTrim s) = strTrim s :=
  congrArg String.mk (trimChars_idem s.data)

theorem strTrim_strUpper (s : String) :
    strTrim (strUpper s) = strUpper (strTrim s) :=
  congrArg String.mk (trimChars_map_upperChar s.data)

theorem strUpper_idem (s : String) : strUpper (strUpper s) = strUpper s :=
  congrArg String.mk (by
    show (s.data.map upperChar).map upperChar = s.data.map upperChar
    rw [List.map_map]
    exact List.map_congr_left (fun c _ => upperChar_idem c))

/-- The standardized form of a categorical cell is a fixed point of the
standardization. -/
theorem catCell_idem (x : Cell) : catCell (catCell x) = catCell x := by
  show Cell.str (strUpper (strTrim (strUpper (strTrim (cellToStr x))))) = _
  rw [strTrim_strUpper, strTrim_idem, strUpper_idem]
  rfl

/-- Every categorical output cell is a trimmed, uppercased string. -/
theorem catCell_shape (x : Cell) :
    ∃ s, catCell x = .str s ∧ strTrim s = s ∧ strUpper s = s := by
  refine ⟨strUpper (strTrim (cellToStr x)), rfl, ?_, strUpper_idem _⟩
  rw [strTrim_strUpper, strTrim_idem]

theorem numCell_num (q : Rat) : numCell (Cell.num q) = Cell.num q := rfl

/-- Every numeric output cell is a number. -/
theorem numCell_shape (x : Cell) : ∃ q, numCell x = .num q := by
  cases x with
  | str s => exact ⟨_, rfl⟩
  | num q => exact ⟨q, rfl⟩
  | null => exact ⟨0, rfl⟩

theorem truncRat_intCast (n : Int) : truncRat (n : Rat) = n := by
  unfold truncRat
  rw [Rat.num_intCast, Rat.den_intCast]
  exact Int.tdiv_one n

theorem yearCell_str_none {s : String} (hp : parseNum s = none) :
    yearCell (Cell.str s) = Cell.null := by
  simp only [yearCell, hp]

theorem yearCell_str_some {s : String} {q : Rat} (hp : parseNum s = some q) :
    yearCell (Cell.str s) = Cell.num (truncRat q : Int) := by
  simp only [yearCell, hp]

/-- Every fiscal-year output cell is an integer or a null, and the
year-cell map is a fixed point on its own image. -/
theorem yearCell_shape (x : Cell) :
    yearCell x = .null ∨ ∃ n : Int, yearCell x = .num n := by
  cases x with
  | str s =>
    cases hp : parseNum s with
    | none => exact Or.inl (yearCell_str_none hp)
    | some q => exact Or.inr ⟨truncRat q, yearCell_str_some hp⟩
  | num q => exact Or.inr ⟨truncRat q, rfl⟩
  | null => exact Or.inl rfl

theorem yearCell_idem (x : Cell) : yearCell (yearCell x) = yearCell x := by
  rcases yearCell_shape x with h | ⟨n, h⟩
  · rw [h]
    rfl
  · rw [h]
    show Cell.num (truncRat (n : Rat)) = Cell.num (n : Rat)
    rw [truncRat_intCast]

/-! ## Positional-fallback lemmas -/

theorem posFallback_of_mem {t : Table} (h : "SETOR_ATIVIDADE" ∈ headers t) :
    posFallback t = t := by
  unfold posFallback
  rw [if_pos (List.elem_iff.mpr h)]

theorem posFallback_of_short {t : Table} (h : t.length < 42) :
    posFallback t = t := by
  unfold posFallback
  by_cases hmem : (headers t).contains "SETOR_ATIVIDADE"
  · rw [if_pos hmem]
  · rw [if_neg hmem]
    have : t.get? 41 = none := List.get?_eq_none.mpr (by omega)
    rw [this]

/-- With the sector absent and at least 42 columns, the fallback renames all
columns labelled like column 41 (in particular column 41 itself). -/
theorem posFallback_of_long {t : Table} {c41 : Col}
    (hmem : "SETOR_ATIVIDADE" ∉ headers t) (hget : t.get? 41 = some c41) :
    posFallback t =
      t.map (fun c => if c.1 = c41.1 then ("SETOR_ATIVIDADE", c.2) else c) := by
  unfold posFallback
  rw [if_neg (fun hc => hmem (List.elem_iff.mp hc)), hget]

/-! ## Mid-level helper lemmas -/

/-- A coercion loop never changes the row count. -/
theorem fold_nrows (cond : String → Bool) (tf : Cell → Cell)
    (fill : String → Cell) {keys : List String} {t t' : Table}
    (h : keys.foldlM (coerceCol cond tf fill) t = .ok t') :
    nrows t' = nrows t := by
  induction keys generalizing t with
  | nil => cases h; rfl
  | cons k ks ih =>
    rw [List.foldlM_cons] at h
    cases hk : coerceCol cond tf fill t k with
    | error e =>
      rw [hk] at h
      replace h : (Except.error e : Except String Table) = .ok t' := h
      simp at h
    | ok t₁ =>
      rw [hk] at h
      replace h : ks.foldlM (coerceCol cond tf fill) t₁ = .ok t' := h
      exact (ih h).trans (coerceCol_ok_nrows cond tf fill hk)

/-- Mapping a pointwise-identity function over a table is the identity. -/
theorem table_map_id {g : Col → Col} {t : Table} (h : ∀ c ∈ t, g c = c) :
    t.map g = t :=
  (List.map_congr_left h).trans (List.map_id t)

/-- `mapCol` is the identity when the transform fixes the labelled cells. -/
theorem mapCol_eq_self {col : String} {f : List Cell → List Cell} {t : Table}
    (h : ∀ c ∈ t, c.1 = col → f c.2 = c.2) : mapCol col f t = t := by
  refine table_map_id (fun c hc => ?_)
  by_cases hl : c.1 = col
  · rw [if_pos hl, h c hc hl]
  · rw [if_neg hl]

theorem countLabel_eq_of_headers {a b : Table} (h : headers a = headers b)
    (l : String) : countLabel a l = countLabel b l := by
  simp [countLabel, h]

theorem mem_of_countLabel_pos {t : Table} {l : String}
    (h : 0 < countLabel t l) : l ∈ headers t := by
  by_contra hm
  rw [countLabel_eq_zero_iff.mpr hm] at h
  omega

theorem countLabel_pos_of_mem {t : Table} {l : String} (h : l ∈ headers t) :
    0 < countLabel t l := by
  rcases hn : countLabel t l with _ | n
  · exact absurd (countLabel_eq_zero_iff.mp hn) (not_not_intro h)
  · omega

/-- Every header after alias renaming is an original header or a canonical
name. -/
theorem headers_aliasRename_sub (t1 : Table) :
    ∀ l ∈ headers (aliasRename t1), l ∈ headers t1 ∨ l ∈ renameMap.map Prod.fst := by
  intro l hl
  unfold aliasRename at hl
  rw [headers_applyRename] at hl
  obtain ⟨h0, hh0, hren⟩ := List.mem_map.mp hl
  cases hlk : List.lookup h0 (buildRename (headers t1)) with
  | none =>
    rw [hlk] at hren
    exact Or.inl (hren ▸ hh0)
  | some c =>
    rw [hlk] at hren
    obtain ⟨p, hp, hpc, -, -⟩ := lookup_buildRenameGen_mem hlk
    exact Or.inr (hren ▸ (hpc ▸ List.mem_map_of_mem Prod.fst hp))

/-- Every header after the positional fallback is an original header or the
sector name. -/
theorem posFallback_of_none {t : Table}
    (hm : "SETOR_ATIVIDADE" ∉ headers t) (hg : t.get? 41 = none) :
    posFallback t = t := by
  unfold posFallback
  rw [if_neg (fun hc => hm (List.elem_iff.mp hc)), hg]

theorem headers_posFallback_sub (t : Table) :
    ∀ l ∈ headers (posFallback t), l ∈ headers t ∨ l = "SETOR_ATIVIDADE" := by
  by_cases hm : "SETOR_ATIVIDADE" ∈ headers t
  · rw [posFallback_of_mem hm]
    exact fun l hl => Or.inl hl
  · cases hg : t.get? 41 with
    | none =>
      rw [posFallback_of_none hm hg]
      exact fun l hl => Or.inl hl
    | some c41 =>
      rw [posFallback_of_long hm hg]
      intro l hl
      unfold headers at hl
      rw [List.map_map] at hl
      obtain ⟨c, hc, hfst⟩ := List.mem_map.mp hl
      by_cases he : c.1 = c41.1
      · simp only [Function.comp, if_pos he] at hfst
        exact Or.inr hfst.symm
      · simp only [Function.comp, if_neg he] at hfst
        exact Or.inl (hfst ▸ List.mem_map_of_mem Prod.fst hc)

/-- Two distinct present labels mapping to the same name force a duplicate. -/
theorem two_mem_count_map {α β : Type} [DecidableEq α] [DecidableEq β]
    (f : α → β) (l : List α) {a b : α} {v : β} (hne : a ≠ b)
    (hfa : f a = v) (hfb : f b = v) (ha : a ∈ l) (hb : b ∈ l) :
    2 ≤ (l.map f).count v := by
  induction l with
  | nil => cases ha
  | cons x xs ih =>
    rw [List.map_cons, List.count_cons]
    rcases List.mem_cons.mp ha with rfl | ha'
    · have hb' : b ∈ xs := by
        rcases List.mem_cons.mp hb with he | hb'
        · exact absurd he.symm hne
        · exact hb'
      have h1 : 0 < (xs.map f).count v := by
        rw [List.count_pos_iff]
        exact hfb ▸ List.mem_map_of_mem f hb'
      rw [if_pos (by simp [hfa])]
      omega
    · rcases List.mem_cons.mp hb with rfl | hb'
      · have h1 : 0 < (xs.map f).count v := by
          rw [List.count_pos_iff]
          exact hfa ▸ List.mem_map_of_mem f ha'
        rw [if_pos (by simp [hfb])]
        omega
      · have := ih ha' hb'
        omega

theorem contains_eq_decide_mem (hs : List String) (x : String) :
    hs.contains x = decide (x ∈ hs) := by
  by_cases hx : x ∈ hs
  · rw [decide_eq_true hx]
    exact List.elem_iff.mpr hx
  · rw [decide_eq_false hx]
    cases hc : hs.contains x with
    | false => rfl
    | true => exact absurd (List.elem_iff.mp hc) hx

/-- Alias resolution depends only on which names occur among the headers,
not on their order or multiplicity. -/
theorem buildRename_congr {hs hs' : List String}
    (h : ∀ x, x ∈ hs ↔ x ∈ hs') : buildRename hs = buildRename hs' := by
  unfold buildRename buildRenameGen
  refine List.filterMap_congr (fun p _ => ?_)
  have hf : (fun a => hs.contains a) = (fun a => hs'.contains a) := by
    funext a
    rw [contains_eq_decide_mem, contains_eq_decide_mem, decide_eq_decide]
    exact h a
  rw [hf]

/-! ## Whole-pipeline column characterizations -/

/-- A numeric canonical column through the whole pipeline: never duplicated
at coercion time, present exactly once afterwards, and either created
all-zero (absent case) or the cellwise numeric coercion of the resolved
column. -/
theorem pipeline_num_char {t u : Table} (h : pipeline t = .ok u)
    {col : String} (hkey : col ∈ renameMap.map Prod.fst)
    (hnum : isNumericCol col = true) :
    countLabel (resolveCols t) col ≤ 1 ∧ countLabel u col = 1 ∧
      ((countLabel (resolveCols t) col = 0 ∧
          getCol u col =
            some (List.replicate (nrows (resolveCols t)) (Cell.num 0))) ∨
        (∃ cs, getCol (resolveCols t) col = some cs ∧
          countLabel (resolveCols t) col = 1 ∧
          getCol u col = some (cs.map numCell))) := by
  obtain ⟨t4, t5, h4, h5, h6⟩ := pipeline_ok_elim h
  have hncat : col ∉ categoricalCols := fun hc => by
    have hf := catCols_not_numeric col hc
    rw [hnum] at hf
    cases hf
  have hano : col ≠ "ANO_REFER" := fun he => by
    rw [he, anoRefer_not_numeric] at hnum
    cases hnum
  obtain ⟨hc1, hc2, hchar⟩ := numStep_char h4 hkey hnum
  obtain ⟨pg5, pc5, -⟩ := catStep_preserve h5 hncat
  obtain ⟨pg6, pc6, -⟩ := yearStep_preserve h6 hano
  refine ⟨hc1, by rw [pc6, pc5]; exact hc2, ?_⟩
  rcases hchar with ⟨h0, hrep⟩ | ⟨cs, hcs, hone, hmap⟩
  · exact Or.inl ⟨h0, by rw [pg6, pg5]; exact hrep⟩
  · exact Or.inr ⟨cs, hcs, hone, by rw [pg6, pg5]; exact hmap⟩

/-- A categorical column through the whole pipeline: never duplicated,
present exactly once afterwards, and either the sentinel column (absent
case) or the cellwise standardization of the resolved column. -/
theorem pipeline_cat_char {t u : Table} (h : pipeline t = .ok u)
    {col : String} (hcol : col ∈ categoricalCols) :
    countLabel (resolveCols t) col ≤ 1 ∧ countLabel u col = 1 ∧
      ((countLabel (resolveCols t) col = 0 ∧
          getCol u col = some (List.replicate (nrows (resolveCols t))
            (Cell.str (sentinel col)))) ∨
        (∃ cs, getCol (resolveCols t) col = some cs ∧
          countLabel (resolveCols t) col = 1 ∧
          getCol u col = some (cs.map catCell))) := by
  obtain ⟨t4, t5, h4, h5, h6⟩ := pipeline_ok_elim h
  have hano : col ≠ "ANO_REFER" := fun he => anoRefer_not_cat (he ▸ hcol)
  obtain ⟨pg4, pc4, -⟩ := numStep_preserve_cat h4 hcol
  have hnr4 : nrows t4 = nrows (resolveCols t) := fold_nrows _ _ _ h4
  obtain ⟨hc1, hc2, hchar⟩ := catStep_char h5 hcol
  obtain ⟨pg6, pc6, -⟩ := yearStep_preserve h6 hano
  rw [pc4] at hc1
  refine ⟨hc1, by rw [pc6]; exact hc2, ?_⟩
  rcases hchar with ⟨h0, hrep⟩ | ⟨cs, hcs, hone, hmap⟩
  · rw [pc4] at h0
    rw [hnr4] at hrep
    exact Or.inl ⟨h0, by rw [pg6]; exact hrep⟩
  · rw [pg4] at hcs
    rw [pc4] at hone
    exact Or.inr ⟨cs, hcs, hone, by rw [pg6]; exact hmap⟩

/-- The fiscal-year column through the whole pipeline. -/
theorem pipeline_year_char {t u : Table} (h : pipeline t = .ok u) :
    countLabel (resolveCols t) "ANO_REFER" ≤ 1 ∧
      (∀ cs, getCol (resolveCols t) "ANO_REFER" = some cs →
        getCol u "ANO_REFER" = some (cs.map yearCell)) := by
  obtain ⟨t4, t5, h4, h5, h6⟩ := pipeline_ok_elim h
  obtain ⟨pg4, pc4, -⟩ := numStep_preserve_ano h4
  obtain ⟨pg5, pc5, -⟩ := catStep_preserve h5 anoRefer_not_cat
  constructor
  · have hle := yearStep_ok_le_one h6
    rw [← pc4, ← pc5]
    exact hle
  · intro cs hcs
    have h45 : getCol t5 "ANO_REFER" = some cs := by
      rw [pg5, pg4]
      exact hcs
    exact yearStep_self h6 h45

/-! ## Definitions used by the claim statements -/

/-- The canonical fields the code classifies as numeric (the monetary, count
and metric fields): the keys of `rename_map` whose name passes the substring
test of line 95. -/
def numericCols : List String := (renameMap.map Prod.fst).filter isNumericCol

theorem mem_numericCols {col : String} (h : col ∈ numericCols) :
    col ∈ renameMap.map Prod.fst ∧ isNumericCol col = true :=
  ⟨(List.mem_filter.mp h).1, (List.mem_filter.mp h).2⟩

theorem sentinel_ne_NAN : ∀ col ∈ categoricalCols, sentinel col ≠ "NAN" := by
  decide

/-- The group keys of `df.groupby('ANO_REFER')` over the canonical table:
pandas drops null (`NaN`) keys, so only numeric year values ever group. -/
def yearGroupKeys (u : Table) : List Rat :=
  match getCol u "ANO_REFER" with
  | some cs => (cs.filterMap (fun x => match x with
      | Cell.num q => some q
      | _ => none)).dedup
  | none => []

/-! ## Claim C1 -/

/-- C1, counterexample: the claim asserts every monetary/count cell of a
successful load is non-negative, but `pd.to_numeric` preserves negative
source values: loading a table whose `SALARIO` cell is `"-5"` succeeds and
yields the negative value `-5` in `REM_FIXA_SALARIO`. -/
theorem C1_counterexample :
    getCol (loadTable [("SALARIO", [Cell.str "-5"])]) "REM_FIXA_SALARIO" =
        some [Cell.num (-5)] ∧
      loadTable [("SALARIO", [Cell.str "-5"])] ≠ emptyTable ∧
      ¬ (0 : Rat) ≤ (-5 : Rat) := by
  decide

/-- C1 (amended): after a successful normalization every canonical field
classified as monetary or count is present as a column whose cells are all
numeric values — never null, never a non-numeric string, though possibly
negative when the source value was negative; a cell whose source value is
missing or unparseable becomes zero (`numCell`), and an entirely absent
source column is created with zero in every row. -/
theorem C1_numeric_columns (t u : Table) (h : pipeline t = .ok u)
    (col : String) (hcol : col ∈ numericCols) :
    (∃ cs, getCol u col = some cs ∧ ∀ x ∈ cs, ∃ q : Rat, x = Cell.num q) ∧
    (countLabel (resolveCols t) col = 0 →
      getCol u col = some (List.replicate (nrows (resolveCols t)) (Cell.num 0))) ∧
    (∀ cs, getCol (resolveCols t) col = some cs →
      getCol u col = some (cs.map numCell)) := by
  obtain ⟨hkey, hnum⟩ := mem_numericCols hcol
  obtain ⟨hle, hone, hchar⟩ := pipeline_num_char h hkey hnum
  refine ⟨?_, ?_, ?_⟩
  · rcases hchar with ⟨h0, hrep⟩ | ⟨cs, hcs, hcnt, hmap⟩
    · refine ⟨_, hrep, fun x hx => ?_⟩
      rw [List.eq_of_mem_replicate hx]
      exact ⟨0, rfl⟩
    · refine ⟨_, hmap, fun x hx => ?_⟩
      obtain ⟨y, hy, hxy⟩ := List.mem_map.mp hx
      obtain ⟨q, hq⟩ := numCell_shape y
      exact ⟨q, by rw [← hxy, hq]⟩
  · intro h0
    rcases hchar with ⟨-, hrep⟩ | ⟨cs, hcs, hcnt, -⟩
    · exact hrep
    · rw [h0] at hcnt
      omega
  · intro cs hcs
    rcases hchar with ⟨h0, -⟩ | ⟨cs', hcs', hcnt, hmap⟩
    · exact absurd (mem_of_getCol_eq_some hcs) (countLabel_eq_zero_iff.mp h0)
    · rw [hcs] at hcs'
      injection hcs' with he
      subst he
      exact hmap

/-- Witness for C1: a table whose `SALARIO` cell is the unparseable string
`"abc"` loads successfully and the cell collapses to zero. -/
theorem C1_numeric_columns_witness :
    ∃ u, pipeline [("SALARIO", [Cell.str "abc"])] = .ok u ∧
      getCol u "REM_FIXA_SALARIO" = some [Cell.num 0] := by
  cases hp : pipeline [("SALARIO", [Cell.str "abc"])] with
  | error e =>
    have hok : pipeline [("SALARIO", [Cell.str "abc"])] ≠ .error e := by
      intro hcon
      have h2 : loadTable [("SALARIO", [Cell.str "abc"])] = emptyTable :=
        loadTable_of_error hcon
      have h3 : loadTable [("SALARIO", [Cell.str "abc"])] ≠ emptyTable := by
        decide
      exact h3 h2
    exact absurd hp hok
  | ok u =>
    refine ⟨u, rfl, ?_⟩
    have hc := C1_numeric_columns _ u hp "REM_FIXA_SALARIO" (by decide)
    have hm := hc.2.2 [Cell.str "abc"] (by decide)
    rw [hm]
    decide

/-! ## Claim C2 -/

/-- C2, counterexample: the claim asserts the sentinel for an absent
categorical column is the uppercase string `"SETOR ATIVIDADE NÃO
INFORMADO"` and that every categorical cell is non-empty; but the code's
sentinel is the title-cased `"Setor Atividade Não Informado"` (line 108
applies `.title()`, and the fill runs after the uppercasing step), and a
whitespace-only source cell strips down to the empty string. -/
theorem C2_counterexample :
    getCol (loadTable [("DENOM_CIA", [Cell.str " "])]) "SETOR_ATIVIDADE" =
        some [Cell.str "Setor Atividade Não Informado"] ∧
      "Setor Atividade Não Informado" ≠ "SETOR ATIVIDADE NÃO INFORMADO" ∧
      getCol (loadTable [("DENOM_CIA", [Cell.str " "])]) "NOME_COMPANHIA" =
        some [Cell.str ""] := by
  decide

/-- C2 (amended): after a successful normalization each categorical
canonical field is present in every row as a whitespace-trimmed, uppercased
string — never null, though possibly empty when the source cell was empty
or whitespace-only; the value `"  diretoria estatutária  "` normalizes to
exactly `"DIRETORIA ESTATUTÁRIA"`; and when the source column is entirely
absent the field is filled for every row with the title-cased sentinel
string derived from the field's own name (e.g. `"Setor Atividade Não
Informado"`). -/
theorem C2_categorical_columns (t u : Table) (h : pipeline t = .ok u)
    (col : String) (hcol : col ∈ categoricalCols) :
    (∃ cs, getCol u col = some cs ∧ ∀ x ∈ cs, ∃ s, x = Cell.str s) ∧
    (countLabel (resolveCols t) col = 0 →
      getCol u col = some (List.replicate (nrows (resolveCols t))
        (Cell.str (sentinel col)))) ∧
    (∀ cs, getCol (resolveCols t) col = some cs →
      getCol u col = some (cs.map catCell) ∧
      ∀ x ∈ cs.map catCell, ∃ s, x = Cell.str s ∧ strTrim s = s ∧
        strUpper s = s) ∧
    strUpper (strTrim "  diretoria estatutária  ") = "DIRETORIA ESTATUTÁRIA" := by
  obtain ⟨hle, hone, hchar⟩ := pipeline_cat_char h hcol
  refine ⟨?_, ?_, ?_, by decide⟩
  · rcases hchar with ⟨h0, hrep⟩ | ⟨cs, hcs, hcnt, hmap⟩
    · refine ⟨_, hrep, fun x hx => ?_⟩
      rw [List.eq_of_mem_replicate hx]
      exact ⟨sentinel col, rfl⟩
    · refine ⟨_, hmap, fun x hx => ?_⟩
      obtain ⟨y, hy, hxy⟩ := List.mem_map.mp hx
      obtain ⟨s, hs, -, -⟩ := catCell_shape y
      exact ⟨s, by rw [← hxy, hs]⟩
  · intro h0
    rcases hchar with ⟨-, hrep⟩ | ⟨cs, hcs, hcnt, -⟩
    · exact hrep
    · rw [h0] at hcnt
      omega
  · intro cs hcs
    rcases hchar with ⟨h0, -⟩ | ⟨cs', hcs', hcnt, hmap⟩
    · exact absurd (mem_of_getCol_eq_some hcs) (countLabel_eq_zero_iff.mp h0)
    · rw [hcs] at hcs'
      injection hcs' with he
      subst he
      refine ⟨hmap, fun x hx => ?_⟩
      obtain ⟨y, hy, hxy⟩ := List.mem_map.mp hx
      obtain ⟨s, hs, ht, hu⟩ := catCell_shape y
      exact ⟨s, by rw [← hxy, hs], ht, hu⟩

/-- Witness for C2: a raw table carrying the governing-body column under its
legacy alias with value `"  diretoria estatutária  "` normalizes that cell
to exactly `"DIRETORIA ESTATUTÁRIA"`. -/
theorem C2_categorical_columns_witness :
    ∃ u, pipeline [("Orgao_Administracao",
        [Cell.str "  diretoria estatutária  "])] = .ok u ∧
      getCol u "ORGAO_ADMINISTRACAO" = some [Cell.str "DIRETORIA ESTATUTÁRIA"] := by
  cases hp : pipeline [("Orgao_Administracao",
      [Cell.str "  diretoria estatutária  "])] with
  | error e =>
    have h2 := loadTable_of_error hp
    have h3 : loadTable [("Orgao_Administracao",
        [Cell.str "  diretoria estatutária  "])] ≠ emptyTable := by decide
    exact absurd h2 h3
  | ok u =>
    refine ⟨u, rfl, ?_⟩
    have hc := C2_categorical_columns _ u hp "ORGAO_ADMINISTRACAO" (by decide)
    have hm := (hc.2.2.1 [Cell.str "  diretoria estatutária  "] (by decide)).1
    rw [hm]
    decide

/-! ## Claim C9 -/

/-- C9: a categorical column that is present but has a null (missing) cell
gets the literal string `"NAN"` there — the stringification of the null,
trimmed and uppercased — and not the sentinel placeholder: the sentinel is
used only when the whole column is absent, because the null-fill of line
105 runs after `astype(str)` and can never observe a null. -/
theorem C9_null_cell_becomes_NAN (t u : Table) (h : pipeline t = .ok u)
    (col : String) (hcol : col ∈ categoricalCols) (cs : List Cell)
    (hpresent : getCol (resolveCols t) col = some cs) (i : Nat)
    (hnull : cs.get? i = some Cell.null) :
    ∃ out, getCol u col = some out ∧ out.get? i = some (Cell.str "NAN") ∧
      Cell.str "NAN" ≠ Cell.str (sentinel col) := by
  obtain ⟨-, -, hchar⟩ := pipeline_cat_char h hcol
  rcases hchar with ⟨h0, -⟩ | ⟨cs', hcs', -, hmap⟩
  · exact absurd (mem_of_getCol_eq_some hpresent) (countLabel_eq_zero_iff.mp h0)
  · rw [hpresent] at hcs'
    injection hcs' with he
    subst he
    refine ⟨cs.map catCell, hmap, ?_, ?_⟩
    · rw [List.get?_map, hnull]
      decide
    · intro he
      injection he with hs
      exact sentinel_ne_NAN col hcol hs.symm

/-- Witness for C9: a table whose `UF_SEDE` column has one null cell
normalizes it to the string `"NAN"`. -/
theorem C9_null_cell_becomes_NAN_witness :
    ∃ u, pipeline [("UF_SEDE", [Cell.null])] = .ok u ∧
      ∃ out, getCol u "UF_SEDE" = some out ∧
        out.get? 0 = some (Cell.str "NAN") := by
  cases hp : pipeline [("UF_SEDE", [Cell.null])] with
  | error e =>
    have h2 := loadTable_of_error hp
    have h3 : loadTable [("UF_SEDE", [Cell.null])] ≠ emptyTable := by decide
    exact absurd h2 h3
  | ok u =>
    refine ⟨u, rfl, ?_⟩
    obtain ⟨out, ho, hn, -⟩ := C9_null_cell_becomes_NAN _ u hp "UF_SEDE"
      (by decide) [Cell.null] (by decide) 0 (by decide)
    exact ⟨out, ho, hn⟩

/-! ## Claim C5 -/

/-- C5: the fiscal-year column is coerced cellwise: a parseable year like
`"2023"` becomes the integer `2023`, an unparseable year (`"n/a"`, empty)
becomes a null which can never satisfy a year-equality filter (so such rows
are excluded from year-based integer filtering without raising) and null
cells contribute no key to year-based grouping, whose keys are all
integers. -/
theorem C5_year_integrity (t u : Table) (h : pipeline t = .ok u)
    (cs : List Cell) (hg : getCol (resolveCols t) "ANO_REFER" = some cs) :
    getCol u "ANO_REFER" = some (cs.map yearCell) ∧
    (∀ x ∈ cs.map yearCell, x = Cell.null ∨ ∃ n : Int, x = Cell.num n) ∧
    yearCell (Cell.str "2023") = Cell.num (2023 : Int) ∧
    yearCell (Cell.str "n/a") = Cell.null ∧
    yearCell Cell.null = Cell.null ∧
    (∀ y : Rat, ∀ i, (cs.map yearCell).get? i = some Cell.null →
      ¬ (cs.map yearCell).get? i = some (Cell.num y)) ∧
    (∀ q ∈ yearGroupKeys u, ∃ n : Int, q = (n : Rat)) := by
  have hmain := (pipeline_year_char h).2 cs hg
  refine ⟨hmain, ?_, by decide, by decide, rfl, ?_, ?_⟩
  · intro x hx
    obtain ⟨y, hy, hxy⟩ := List.mem_map.mp hx
    exact hxy ▸ yearCell_shape y
  · intro y i h1 h2
    rw [h1] at h2
    injection h2 with h3
    cases h3
  · intro q hq
    unfold yearGroupKeys at hq
    rw [hmain] at hq
    rw [List.mem_dedup] at hq
    obtain ⟨x, hx, hfx⟩ := List.mem_filterMap.mp hq
    obtain ⟨z, hz, hzx⟩ := List.mem_map.mp hx
    rcases yearCell_shape z with hn | ⟨n, hn⟩
    · rw [← hzx, hn] at hfx
      cases hfx
    · rw [← hzx, hn] at hfx
      injection hfx with he
      exact ⟨n, he.symm⟩

/-- Witness for C5: a raw year column (under its legacy alias) holding
`"2023"` and `"n/a"` becomes the integer `2023` and a null. -/
theorem C5_year_integrity_witness :
    ∃ u, pipeline [("Ano do Exercício Social",
        [Cell.str "2023", Cell.str "n/a"])] = .ok u ∧
      getCol u "ANO_REFER" = some [Cell.num (2023 : Int), Cell.null] := by
  cases hp : pipeline [("Ano do Exercício Social",
      [Cell.str "2023", Cell.str "n/a"])] with
  | error e =>
    have h2 := loadTable_of_error hp
    have h3 : loadTable [("Ano do Exercício Social",
        [Cell.str "2023", Cell.str "n/a"])] ≠ emptyTable := by decide
    exact absurd h2 h3
  | ok u =>
    refine ⟨u, rfl, ?_⟩
    have hm := (C5_year_integrity _ u hp
      [Cell.str "2023", Cell.str "n/a"] (by decide)).1
    rw [hm]
    decide

/-! ## Claim C3 -/

/-- C3: when the fetch or the parse fails — or any exception is raised
during the processing body — `load_data` returns the explicit zero-row
empty table, and (being a total function here) never lets an exception
propagate: every run is either the empty-table failure marker or a
successful pipeline result. -/
theorem load_data_some (bs : List Nat) :
    load_data (some bs) = match readCsv bs with
      | none => emptyTable
      | some t => loadTable t := rfl

theorem C3_failure_yields_empty_table :
    load_data none = emptyTable ∧
    (∀ bs, readCsv bs = none → load_data (some bs) = emptyTable) ∧
    (∀ t e, pipeline t = .error e → loadTable t = emptyTable) ∧
    (∀ src, load_data src = emptyTable ∨
      ∃ t u, src = some t ∧ readCsv t = some u ∧
        ∃ v, pipeline u = .ok v ∧ load_data src = v) := by
  refine ⟨rfl, ?_, ?_, ?_⟩
  · intro bs hb
    rw [load_data_some, hb]
  · intro t e he
    exact loadTable_of_error he
  · intro src
    cases src with
    | none => exact Or.inl rfl
    | some bs =>
      cases hr : readCsv bs with
      | none =>
        refine Or.inl ?_
        rw [load_data_some, hr]
      | some t =>
        cases hp : pipeline t with
        | error e =>
          refine Or.inl ?_
          rw [load_data_some, hr]
          exact loadTable_of_error hp
        | ok v =>
          refine Or.inr ⟨bs, t, rfl, hr, v, hp, ?_⟩
          rw [load_data_some, hr]
          show loadTable t = v
          unfold loadTable
          rw [hp]

/-- Witness for C3: the single byte `0xFF` is not valid UTF-8, the parse
fails, and the load degrades to the empty table. -/
theorem C3_failure_yields_empty_table_witness :
    readCsv [0xFF] = none ∧ load_data (some [0xFF]) = emptyTable :=
  ⟨by decide, C3_failure_yields_empty_table.2.1 [0xFF] (by decide)⟩

/-! ## Claim C8 -/

/-- Modelled from the spec: the "single-byte Latin-oriented encoding"
(Latin-1), in which every byte below 256 decodes to the character of the
same code point.  Used only to state which byte streams are well-formed
Latin-1 sources; `load_data` itself never invokes it. -/
def latin1Decode (bs : List Nat) : Option (List Char) :=
  if bs.all (· < 256) then some (bs.map Char.ofNat) else none

/-- The bytes of `"SETOR\nÁ"` in Latin-1: a well-formed one-column CSV. -/
def latinBytes : List Nat := [0x53, 0x45, 0x54, 0x4F, 0x52, 0x0A, 0xC1]

/-- C8, counterexample: the claim asserts that a well-formed source in a
single-byte Latin encoding also normalizes successfully, but the code
tries exactly one encoding (`utf-8-sig`): the Latin-1 file `"SETOR\nÁ"`
decodes fine as Latin-1 (and parses as a CSV), yet its byte `0xC1` is
invalid UTF-8, so the load yields the empty failure marker instead of a
canonical table. -/
theorem C8_counterexample :
    latin1Decode latinBytes = some ("SETOR\nÁ".data) ∧
    (parseCsv ("SETOR\nÁ".data)).isSome = true ∧
    readCsv latinBytes = none ∧
    load_data (some latinBytes) = emptyTable := by
  decide

/-- C8 (amended): `load_data` supports exactly one text encoding, the
BOM-aware UTF-8 variant `utf-8-sig`: a leading byte-order mark is stripped
and the rest decoded as strict UTF-8, and any source whose bytes are not
valid UTF-8 (in particular a Latin-1 file with non-ASCII bytes) fails to
decode and degrades to the empty table. -/
theorem C8_single_encoding :
    (∀ bs, utf8sigDecode (bomBytes ++ bs) = utf8Decode bs) ∧
    (∀ bs cs, utf8sigDecode bs = some cs → readCsv bs = parseCsv cs) ∧
    (∀ bs, utf8sigDecode bs = none → load_data (some bs) = emptyTable) := by
  refine ⟨fun bs => rfl, ?_, ?_⟩
  · intro bs cs hd
    unfold readCsv
    rw [hd]
    rfl
  · intro bs hd
    have hr : readCsv bs = none := by
      unfold readCsv
      rw [hd]
      rfl
    rw [load_data_some, hr]

/-- Witness for C8: the lone byte `0xC1` (a Latin-1 `Á`) is not valid
UTF-8, so the load yields the empty table. -/
theorem C8_single_encoding_witness :
    utf8sigDecode [0xC1] = none ∧ load_data (some [0xC1]) = emptyTable :=
  ⟨by decide, C8_single_encoding.2.2 [0xC1] (by decide)⟩

/-! ## Claim C6 -/

/-- C6: when a raw table's headers contain alias spellings of the same
canonical field, the alias occurring first in the field's declared ordered
alias list is the one renamed to the canonical name (every column carrying
it is relabelled), any later alias of the field is left untouched, and the
resolution is deterministic and independent of the order of the raw
columns: the rename dict depends only on which names occur among the
headers. -/
theorem C6_alias_precedence (t : Table) (c : String) (as : List String)
    (hmem : (c, as) ∈ renameMap) (a : String)
    (hfind : as.find? (fun x => (headers t).contains x) = some a) :
    List.lookup a (buildRename (headers t)) = some c ∧
    (∀ col ∈ t, col.1 = a → (c, col.2) ∈ aliasRename t) ∧
    (∀ a', a' ∈ as → a' ≠ a →
      List.lookup a' (buildRename (headers t)) = none ∧
      ∀ col ∈ t, col.1 = a' → (a', col.2) ∈ aliasRename t) ∧
    (∀ t' : Table, (∀ x, x ∈ headers t' ↔ x ∈ headers t) →
      buildRename (headers t') = buildRename (headers t)) := by
  have h1 : List.lookup a (buildRename (headers t)) = some c :=
    lookup_buildRenameGen_chosen allAliases_nodup hmem hfind
  refine ⟨h1, ?_, ?_, fun t' ht' => buildRename_congr ht'⟩
  · intro col hcol hla
    unfold aliasRename applyRename
    refine List.mem_map.mpr ⟨col, hcol, ?_⟩
    rw [hla, h1]
    rfl
  · intro a' ha' hne
    have h2 : List.lookup a' (buildRename (headers t)) = none :=
      lookup_buildRenameGen_other allAliases_nodup hmem hfind ha' hne
    refine ⟨h2, fun col hcol hla => ?_⟩
    unfold aliasRename applyRename
    refine List.mem_map.mpr ⟨col, hcol, ?_⟩
    rw [hla, h2]
    rfl

/-- Witness for C6: with both legacy spellings `VALOR_MAIOR_REMUNERACAO`
and `REMUNERACAO_MAXIMA` present (in that raw order), the alias-list-first
spelling `REMUNERACAO_MAXIMA` is the one mapped to
`REM_MAXIMA_INDIVIDUAL`. -/
theorem C6_alias_precedence_witness :
    List.lookup "REMUNERACAO_MAXIMA"
        (buildRename (headers [("VALOR_MAIOR_REMUNERACAO", ([] : List Cell)),
          ("REMUNERACAO_MAXIMA", ([] : List Cell))])) =
      some "REM_MAXIMA_INDIVIDUAL" :=
  (C6_alias_precedence
    [("VALOR_MAIOR_REMUNERACAO", ([] : List Cell)),
     ("REMUNERACAO_MAXIMA", ([] : List Cell))]
    "REM_MAXIMA_INDIVIDUAL"
    ["Valor_Maior_Remuneracao_Individual_Reconhecida_Exercicio",
     "Valor_Maior_Remuneracao_Individual", "REMUNERACAO_MAXIMA",
     "VALOR_MAIOR_REMUNERACAO"]
    (by decide) "REMUNERACAO_MAXIMA" (by decide)).1

/-! ## Claim C10 -/

theorem selfAlias_singleton : ∀ p ∈ renameMap, p.1 ∈ p.2 → p.2 = [p.1] := by
  decide

theorem canonical_alias_unique :
    ∀ p ∈ renameMap, ∀ q ∈ renameMap, p.1 ∈ q.2 → q.1 = p.1 ∧ q.2 = p.2 := by
  decide

theorem keys_family : ∀ k ∈ renameMap.map Prod.fst,
    isNumericCol k = true ∨ k ∈ categoricalCols ∨ k = "ANO_REFER" := by
  decide

theorem sector_mem_cat : "SETOR_ATIVIDADE" ∈ categoricalCols := by decide

/-- A canonical label duplicated at resolution time makes some coercion
step raise, so the whole pipeline raises. -/
theorem pipeline_error_of_dup {t : Table} {l : String}
    (hfam : (l ∈ renameMap.map Prod.fst ∧ isNumericCol l = true) ∨
      l ∈ categoricalCols ∨ l = "ANO_REFER")
    (hdup : 2 ≤ countLabel (resolveCols t) l) :
    ∃ e, pipeline t = .error e := by
  rcases hfam with ⟨hkey, hnum⟩ | hcat | hano
  · obtain ⟨e, he⟩ := fold_error_of_dup isNumericCol numCell
      (fun _ => Cell.num 0) hkey hnum hdup
    exact ⟨e, pipeline_error_num he⟩
  · cases h4 : numStep (resolveCols t) with
    | error e => exact ⟨e, pipeline_error_num h4⟩
    | ok t4 =>
      obtain ⟨-, pc4, -⟩ := numStep_preserve_cat h4 hcat
      obtain ⟨e, he⟩ := fold_error_of_dup (fun _ => true) catCell
        (fun col => Cell.str (sentinel col)) hcat rfl (pc4 ▸ hdup)
      exact ⟨e, pipeline_error_cat h4 he⟩
  · subst hano
    cases h4 : numStep (resolveCols t) with
    | error e => exact ⟨e, pipeline_error_num h4⟩
    | ok t4 =>
      obtain ⟨-, pc4, -⟩ := numStep_preserve_ano h4
      cases h5 : catStep t4 with
      | error e => exact ⟨e, pipeline_error_cat h4 h5⟩
      | ok t5 =>
        obtain ⟨-, pc5, -⟩ := catStep_preserve h5 anoRefer_not_cat
        obtain ⟨e, he⟩ := yearStep_error_of_dup (t := t5) (by
          rw [pc5, pc4]
          exact hdup)
        exact ⟨e, pipeline_error_year h4 h5 he⟩

/-- Headers after the fallback's rename-by-label. -/
theorem headers_posFallback_long {t : Table} {c41 : Col}
    (hmem : "SETOR_ATIVIDADE" ∉ headers t) (hget : t.get? 41 = some c41) :
    headers (posFallback t) = (headers t).map
      (fun h => if h = c41.1 then "SETOR_ATIVIDADE" else h) := by
  rw [posFallback_of_long hmem hget]
  unfold headers
  rw [List.map_map, List.map_map]
  refine List.map_congr_left (fun col _ => ?_)
  by_cases he : col.1 = c41.1
  · simp [Function.comp, he]
  · simp [Function.comp, he]

/-- C10: a raw table whose (stripped) header contains both a canonical
field name and a distinct alias of that same field ends up, after
renaming, with that canonical label on two columns (or, via the positional
fallback, with `SETOR_ATIVIDADE` duplicated); the corresponding coercion
then raises, and `load_data` returns the empty table for the whole load. -/
theorem C10_duplicate_canonical_label (t : Table) (c : String)
    (as : List String) (hmem : (c, as) ∈ renameMap) (a : String)
    (ha : a ∈ as) (hane : a ≠ c)
    (hc : c ∈ headers (stripHeaders t)) (hA : a ∈ headers (stripHeaders t)) :
    (∃ e, pipeline t = .error e) ∧ loadTable t = emptyTable := by
  have hcas : c ∉ as := by
    intro hcin
    have h2 : as = [c] := selfAlias_singleton (c, as) hmem hcin
    rw [h2] at ha
    exact hane (List.mem_singleton.mp ha)
  -- the loop finds some alias of the field among the headers
  cases hf : as.find? (fun x => (headers (stripHeaders t)).contains x) with
  | none =>
    rw [List.find?_eq_none] at hf
    exact absurd (List.elem_iff.mpr hA) (by simpa using hf a ha)
  | some a0 =>
    have ha0 : a0 ∈ as := List.mem_of_find?_eq_some hf
    have ha0mem : a0 ∈ headers (stripHeaders t) :=
      List.elem_iff.mp (by simpa using List.find?_some hf)
    have ha0c : a0 ≠ c := fun he => hcas (he ▸ ha0)
    -- the canonical name is nobody's chosen alias, so it is not renamed
    have hlc : List.lookup c (buildRename (headers (stripHeaders t))) = none := by
      refine lookup_buildRenameGen_none (fun p hp x hx hxc => ?_)
      have hxm : x ∈ p.2 := List.mem_of_find?_eq_some hx
      rw [hxc] at hxm
      obtain ⟨-, hq2⟩ := canonical_alias_unique (c, as) hmem p hp hxm
      rw [hq2] at hxm
      exact hcas hxm
    have hla0 : List.lookup a0 (buildRename (headers (stripHeaders t))) =
        some c := lookup_buildRenameGen_chosen allAliases_nodup hmem hf
    -- after renaming, `c` labels at least two columns
    have hdup2 : 2 ≤ countLabel (aliasRename (stripHeaders t)) c := by
      unfold countLabel
      unfold aliasRename
      rw [headers_applyRename]
      refine two_mem_count_map _ _ (a := c) (b := a0) (fun he => ha0c he.symm)
        ?_ ?_ hc ha0mem
      · rw [hlc]
        rfl
      · rw [hla0]
        rfl
    have hkeymem : c ∈ renameMap.map Prod.fst :=
      List.mem_map_of_mem Prod.fst hmem
    have hfam := keys_family c hkeymem
    -- track the duplicate through the positional fallback
    have hdup3 : 2 ≤ countLabel (resolveCols t) c ∨
        2 ≤ countLabel (resolveCols t) "SETOR_ATIVIDADE" := by
      unfold resolveCols
      by_cases hs : "SETOR_ATIVIDADE" ∈ headers (aliasRename (stripHeaders t))
      · rw [posFallback_of_mem hs]
        exact Or.inl hdup2
      · cases hg : (aliasRename (stripHeaders t)).get? 41 with
        | none =>
          rw [posFallback_of_none hs hg]
          exact Or.inl hdup2
        | some c41 =>
          by_cases hcc : c = c41.1
          · refine Or.inr ?_
            unfold countLabel
            rw [headers_posFallback_long hs hg]
            calc 2 ≤ countLabel (aliasRename (stripHeaders t)) c := hdup2
              _ ≤ _ := by
                have := List.count_le_count_map
                  (headers (aliasRename (stripHeaders t)))
                  (fun h => if h = c41.1 then "SETOR_ATIVIDADE" else h) c
                rw [if_pos hcc] at this
                exact this
          · refine Or.inl ?_
            unfold countLabel
            rw [headers_posFallback_long hs hg]
            calc 2 ≤ countLabel (aliasRename (stripHeaders t)) c := hdup2
              _ ≤ _ := by
                have := List.count_le_count_map
                  (headers (aliasRename (stripHeaders t)))
                  (fun h => if h = c41.1 then "SETOR_ATIVIDADE" else h) c
                rw [if_neg hcc] at this
                exact this
    have herr : ∃ e, pipeline t = .error e := by
      rcases hdup3 with hd | hd
      · rcases hfam with hnum | hcat | hano
        · exact pipeline_error_of_dup (Or.inl ⟨hkeymem, hnum⟩) hd
        · exact pipeline_error_of_dup (Or.inr (Or.inl hcat)) hd
        · exact pipeline_error_of_dup (Or.inr (Or.inr hano)) hd
      · exact pipeline_error_of_dup (Or.inr (Or.inl sector_mem_cat)) hd
    obtain ⟨e, he⟩ := herr
    exact ⟨⟨e, he⟩, loadTable_of_error he⟩

/-- Witness for C10: a table carrying both `REM_MAXIMA_INDIVIDUAL` and its
legacy alias `REMUNERACAO_MAXIMA` makes the load fail and return the empty
table. -/
theorem C10_duplicate_canonical_label_witness :
    (∃ e, pipeline [("REM_MAXIMA_INDIVIDUAL", [Cell.null]),
        ("REMUNERACAO_MAXIMA", [Cell.null])] = .error e) ∧
      loadTable [("REM_MAXIMA_INDIVIDUAL", [Cell.null]),
        ("REMUNERACAO_MAXIMA", [Cell.null])] = emptyTable :=
  C10_duplicate_canonical_label
    [("REM_MAXIMA_INDIVIDUAL", [Cell.null]), ("REMUNERACAO_MAXIMA", [Cell.null])]
    "REM_MAXIMA_INDIVIDUAL"
    ["Valor_Maior_Remuneracao_Individual_Reconhecida_Exercicio",
     "Valor_Maior_Remuneracao_Individual", "REMUNERACAO_MAXIMA",
     "VALOR_MAIOR_REMUNERACAO"]
    (by decide) "REMUNERACAO_MAXIMA" (by decide) (by decide)
    (by decide) (by decide)

/-! ## Claim C4 -/

/-- The sector field's declared ordered alias list (from `rename_map`). -/
def sectorAliases : List String :=
  ["SETOR_DE_ATIVDADE", "Setor de ativdade", "Setor de Atividade", "SETOR",
   "ATIVIDADE"]

theorem sector_entry_unique :
    ∀ p ∈ renameMap, p.1 = "SETOR_ATIVIDADE" → p.2 = sectorAliases := by
  decide

/-- A 42-column raw table: the literal canonical sector header in column 0
plus 41 filler columns, none of which is an alias of anything. -/
def tC4 : Table :=
  ("SETOR_ATIVIDADE", ([] : List Cell)) ::
    (List.range 41).map (fun i => ("X" ++ toString i, ([] : List Cell)))

/-- C4, counterexample: the claim quantifies over tables in which no alias
of the sector field matches any header and asserts the column at offset 41
is then renamed to `SETOR_ATIVIDADE`; but the code's guard is on the
canonical name being absent, so a 42-column table already headed by the
literal `SETOR_ATIVIDADE` (which is not an alias) satisfies the claim's
hypothesis while column 41 keeps its own label. -/
theorem C4_counterexample :
    tC4.length = 42 ∧
    (∀ p ∈ renameMap, ∀ x ∈ p.2, x ∉ headers tC4) ∧
    resolveCols tC4 = tC4 ∧
    (headers (resolveCols tC4)).get? 41 = some "X40" ∧
    "X40" ≠ "SETOR_ATIVIDADE" := by
  decide

/-- C4 (amended): for a raw table in which neither any alias of the sector
field nor the canonical name `SETOR_ATIVIDADE` itself appears among the
whitespace-stripped headers: with at least 42 columns, the column at
zero-based offset 41 is renamed to `SETOR_ATIVIDADE`; with fewer than 42
columns no index error occurs, the sector stays unresolved and a
successful load fills the sector column with the sentinel value in every
row. -/
theorem C4_positional_fallback (t : Table)
    (hno : ∀ h ∈ headers (stripHeaders t),
      h ∉ sectorAliases ∧ h ≠ "SETOR_ATIVIDADE") :
    (42 ≤ t.length →
      (headers (resolveCols t)).get? 41 = some "SETOR_ATIVIDADE") ∧
    (t.length < 42 →
      "SETOR_ATIVIDADE" ∉ headers (resolveCols t) ∧
      ∀ u, pipeline t = .ok u →
        getCol u "SETOR_ATIVIDADE" =
          some (List.replicate (nrows (resolveCols t))
            (Cell.str (sentinel "SETOR_ATIVIDADE")))) := by
  have hlen2 : (aliasRename (stripHeaders t)).length = t.length := by
    unfold aliasRename
    rw [length_applyRename, length_stripHeaders]
  have hsmem : "SETOR_ATIVIDADE" ∉ headers (aliasRename (stripHeaders t)) := by
    intro hs
    unfold aliasRename at hs
    rw [headers_applyRename] at hs
    obtain ⟨h0, hh0, hren⟩ := List.mem_map.mp hs
    cases hlk : List.lookup h0 (buildRename (headers (stripHeaders t))) with
    | none =>
      rw [hlk] at hren
      exact (hno h0 hh0).2 hren
    | some cc =>
      rw [hlk] at hren
      obtain ⟨p, hp, hp1, hp2, -⟩ := lookup_buildRenameGen_mem hlk
      have : p.2 = sectorAliases := sector_entry_unique p hp (hp1.trans hren)
      rw [this] at hp2
      exact (hno h0 hh0).1 hp2
  constructor
  · intro h42
    have h42' : 42 ≤ (aliasRename (stripHeaders t)).length := by
      rw [hlen2]
      exact h42
    cases hg : (aliasRename (stripHeaders t)).get? 41 with
    | none =>
      rw [List.get?_eq_none] at hg
      omega
    | some c41 =>
      unfold resolveCols
      rw [headers_posFallback_long hsmem hg, List.get?_map]
      have hh : (headers (aliasRename (stripHeaders t))).get? 41 =
          some c41.1 := by
        unfold headers
        rw [List.get?_map, hg]
        rfl
      rw [hh]
      simp
  · intro hlt
    have hgn : (aliasRename (stripHeaders t)).get? 41 = none :=
      List.get?_eq_none.mpr (by omega)
    have hres : resolveCols t = aliasRename (stripHeaders t) :=
      posFallback_of_none hsmem hgn
    constructor
    · rw [hres]
      exact hsmem
    · intro u hu
      have h0 : countLabel (resolveCols t) "SETOR_ATIVIDADE" = 0 :=
        countLabel_eq_zero_iff.mpr (by rw [hres]; exact hsmem)
      obtain ⟨-, -, hchar⟩ := pipeline_cat_char hu sector_mem_cat
      rcases hchar with ⟨-, hrep⟩ | ⟨cs, hcs, hcnt, -⟩
      · exact hrep
      · rw [h0] at hcnt
        omega

/-- Witness for C4: a one-column table with no sector information loads
successfully and gets the sentinel sector value. -/
theorem C4_positional_fallback_witness :
    ∃ u, pipeline [("A", [Cell.null])] = .ok u ∧
      getCol u "SETOR_ATIVIDADE" =
        some [Cell.str (sentinel "SETOR_ATIVIDADE")] := by
  cases hp : pipeline [("A", [Cell.null])] with
  | error e =>
    have h2 := loadTable_of_error hp
    have h3 : loadTable [("A", [Cell.null])] ≠ emptyTable := by decide
    exact absurd h2 h3
  | ok u =>
    refine ⟨u, rfl, ?_⟩
    have hc := (C4_positional_fallback [("A", [Cell.null])] (by decide)).2
      (by decide)
    have hm := hc.2 u hp
    rw [hm]
    decide

/-! ## Claim C7 -/

theorem keys_trim_fixed : ∀ k ∈ renameMap.map Prod.fst, strTrim k = k := by
  decide

theorem numCell_idem (x : Cell) : numCell (numCell x) = numCell x := by
  cases x <;> rfl

/-- Every header of a successful pipeline output is already whitespace
trimmed (so a second header-strip pass changes nothing). -/
theorem pipeline_headers_trim_fixed {t u : Table} (h : pipeline t = .ok u) :
    ∀ l ∈ headers u, strTrim l = l := by
  obtain ⟨t4, t5, h4, h5, h6⟩ := pipeline_ok_elim h
  intro l hl
  rw [yearStep_headers h6] at hl
  rcases fold_headers _ _ _ h5 l hl with hl4 | ⟨hck, -⟩
  · rcases fold_headers _ _ _ h4 l hl4 with hl3 | ⟨hnk, -⟩
    · rcases headers_posFallback_sub _ l hl3 with hl2 | rfl
      · rcases headers_aliasRename_sub _ l hl2 with hl1 | hkey
        · rw [headers_stripHeaders] at hl1
          obtain ⟨h0, -, hh0⟩ := List.mem_map.mp hl1
          rw [← hh0]
          exact strTrim_idem h0
        · exact keys_trim_fixed l hkey
      · exact keys_trim_fixed _ (by decide)
    · exact keys_trim_fixed l hnk
  · exact keys_trim_fixed l (catCols_mem_keys l hck)

/-- A coercion iteration is an identity step on a table where its label
occurs exactly once with cells already fixed by the transform. -/
theorem coerceCol_id {cond : String → Bool} {tf : Cell → Cell}
    {fill : String → Cell} {t : Table} {col : String}
    (h1 : countLabel t col = 1)
    (hfix : ∀ c ∈ t, c.1 = col → c.2.map tf = c.2) :
    coerceCol cond tf fill t col = .ok t := by
  unfold coerceCol
  by_cases hc : cond col
  · rw [if_pos hc, h1]
    show Except.ok (mapCol col (List.map tf) t) = .ok t
    rw [mapCol_eq_self hfix]
  · rw [if_neg hc]

theorem yearStep_of_zero {t : Table} (h0 : countLabel t "ANO_REFER" = 0) :
    yearStep t = .ok t := by
  unfold yearStep
  rw [h0]

theorem yearStep_id {t : Table} (h1 : countLabel t "ANO_REFER" = 1)
    (hfix : ∀ c ∈ t, c.1 = "ANO_REFER" → c.2.map yearCell = c.2) :
    yearStep t = .ok t := by
  unfold yearStep
  rw [h1]
  show Except.ok (mapCol "ANO_REFER" (List.map yearCell) t) = .ok t
  rw [mapCol_eq_self hfix]

/-- C7, counterexample: normalization is not idempotent.  A raw table
carrying only the company name (under its `DENOM_CIA` alias) loads to a
non-empty canonical table, but feeding that canonical table back into the
normalization changes it: the title-cased sentinel values filled into the
absent categorical columns get uppercased by the second pass. -/
theorem C7_counterexample :
    loadTable (loadTable [("DENOM_CIA", [Cell.str "a"])]) ≠
        loadTable [("DENOM_CIA", [Cell.str "a"])] ∧
      loadTable [("DENOM_CIA", [Cell.str "a"])] ≠ emptyTable := by
  decide

/-- C7 (amended): the canonical output of a successful normalization is a
fixed point of normalization provided (i) every categorical canonical
field resolved from the source (so no title-cased sentinel was filled in)
and (ii) no surviving column label is a legacy alias spelling of a
canonical field (such a leftover alias would be renamed on the second pass
onto the already-present canonical column, aborting the reload). -/
theorem C7_fixed_point (t u : Table) (h : pipeline t = .ok u)
    (hcat : ∀ col ∈ categoricalCols, col ∈ headers (resolveCols t))
    (hpass : ∀ l ∈ headers u, ∀ p ∈ renameMap, l ∈ p.2 → l = p.1) :
    pipeline u = .ok u := by
  obtain ⟨t4, t5, h4, h5, h6⟩ := pipeline_ok_elim h
  -- resolution is the identity on the canonical output
  have hstrip : stripHeaders u = u := by
    refine table_map_id (fun c hc => ?_)
    have := pipeline_headers_trim_fixed h c.1 (mem_headers_iff.mpr ⟨c, hc, rfl⟩)
    show (strTrim c.1, c.2) = c
    rw [this]
  have halias : aliasRename u = u := by
    unfold aliasRename applyRename
    refine table_map_id (fun c hc => ?_)
    cases hlk : List.lookup c.1 (buildRename (headers u)) with
    | none => rfl
    | some cc =>
      obtain ⟨p, hp, hp1, hmem2, -⟩ := lookup_buildRenameGen_mem hlk
      have hcp : c.1 = cc :=
        (hpass c.1 (mem_headers_iff.mpr ⟨c, hc, rfl⟩) p hp hmem2).trans hp1
      show (cc, c.2) = c
      rw [← hcp]
  have hsector : "SETOR_ATIVIDADE" ∈ headers u := by
    obtain ⟨-, hone, -⟩ := pipeline_cat_char h sector_mem_cat
    exact mem_of_countLabel_pos (by omega)
  have hres : resolveCols u = u := by
    unfold resolveCols
    rw [hstrip, halias, posFallback_of_mem hsector]
  -- the numeric loop is an identity pass
  have hnumstep : numStep u = .ok u := by
    refine fold_id _ _ _ (fun k hk => ?_)
    by_cases hnum : isNumericCol k
    · obtain ⟨-, hone, hchar⟩ := pipeline_num_char h hk hnum
      have hds : ∃ ds, getCol u k = some ds ∧ ds.map numCell = ds := by
        rcases hchar with ⟨-, hrep⟩ | ⟨cs, -, -, hmap⟩
        · refine ⟨_, hrep, ?_⟩
          rw [List.map_replicate]
          rfl
        · refine ⟨_, hmap, ?_⟩
          rw [List.map_map]
          exact List.map_congr_left (fun x _ => numCell_idem x)
      obtain ⟨ds, hget, hfixds⟩ := hds
      refine coerceCol_id hone (fun c hc hlab => ?_)
      rw [cells_eq_of_countLabel_one hone hget c hc hlab, hfixds]
    · exact coerceCol_cond_false _ _ _ (by simpa using hnum)
  -- the categorical loop is an identity pass
  have hcatstep : catStep u = .ok u := by
    refine fold_id _ _ _ (fun k hk => ?_)
    obtain ⟨-, hone, hchar⟩ := pipeline_cat_char h hk
    have hpos : 0 < countLabel (resolveCols t) k := countLabel_pos_of_mem (hcat k hk)
    rcases hchar with ⟨h0, -⟩ | ⟨cs, -, -, hmap⟩
    · omega
    · have hfixds : (cs.map catCell).map catCell = cs.map catCell := by
        rw [List.map_map]
        exact List.map_congr_left (fun x _ => catCell_idem x)
      refine coerceCol_id hone (fun c hc hlab => ?_)
      rw [cells_eq_of_countLabel_one hone hmap c hc hlab, hfixds]
  -- the fiscal-year pass is an identity pass
  have hyearstep : yearStep u = .ok u := by
    have hcY : countLabel u "ANO_REFER" =
        countLabel (resolveCols t) "ANO_REFER" := by
      rw [countLabel_eq_of_headers (yearStep_headers h6),
        (catStep_preserve h5 anoRefer_not_cat).2.1,
        (numStep_preserve_ano h4).2.1]
    have hle := (pipeline_year_char h).1
    rcases hn : countLabel (resolveCols t) "ANO_REFER" with _ | n
    · exact yearStep_of_zero (by omega)
    · rcases n with _ | n
      · obtain ⟨cs, hcs⟩ := getCol_isSome_of_mem
          (mem_of_countLabel_pos (t := resolveCols t)
            (l := "ANO_REFER") (by omega))
        have hu : getCol u "ANO_REFER" = some (cs.map yearCell) :=
          (pipeline_year_char h).2 cs hcs
        have hfixds : (cs.map yearCell).map yearCell = cs.map yearCell := by
          rw [List.map_map]
          exact List.map_congr_left (fun x _ => yearCell_idem x)
        refine yearStep_id (by omega) (fun c hc hlab => ?_)
        rw [cells_eq_of_countLabel_one (by omega) hu c hc hlab, hfixds]
      · rw [hn] at hle
        omega
  have hnum' : numStep (resolveCols u) = .ok u := by
    rw [hres]
    exact hnumstep
  exact pipeline_ok_intro hnum' hcatstep hyearstep

/-- A raw table carrying all five categorical canonical columns under
their canonical names. -/
def t7w : Table :=
  [("NOME_COMPANHIA", [Cell.str "A"]), ("ORGAO_ADMINISTRACAO", [Cell.str "B"]),
   ("SETOR_ATIVIDADE", [Cell.str "C"]), ("CONTROLE_ACIONARIO", [Cell.str "D"]),
   ("UF_SEDE", [Cell.str "E"])]

/-- Witness for C7: with all categorical columns resolved and no leftover
alias labels, renormalizing the canonical output returns it unchanged. -/
theorem C7_fixed_point_witness :
    pipeline (loadTable t7w) = .ok (loadTable t7w) :=
  C7_fixed_point t7w (loadTable t7w) (by rfl) (by decide) (by decide)

end CVM
